import Mathlib

/-!
Verification of the new-api relay pipeline specification against a shallow
embedding of the repository's source code.

The embedding covers:
* payload capture for audit logging (package `common`: `applyLogLimit`,
  `CapturePayloadForLog`, `CapturePayloadStringForLog`,
  `AppendPayloadChunkForLog`, `GetFullPayloadString`);
* the usage-log detail drawer stream aggregators (web:
  `aggregateOpenAIStreamChunks`, `aggregateClaudeStreamEvents`,
  `collectResponseUsage`);
* the log-detail retention sweep (`model/log_retention.go`:
  `pruneExpiredLogDetails`);
* the pass-through header filter, URL composition and header-override
  template resolution (modelled from the spec where only tests exist in
  the tree).

Go strings are embedded as Lean `String`s; Go `[]rune` conversion matches
`String.toList` (both enumerate Unicode code points).  Gin context keys
become explicit record fields.  Machine integers that can never overflow in
the modelled paths are embedded as `Nat`/`Int`.
-/

set_option maxHeartbeats 1000000

namespace NewApi

/-! ## Payload capture (package `common`)

State of one capture direction: the bounded preview stored under the
preview context key (Gin's `GetString` returns `""` when the key is unset,
so `""` doubles as "unset", exactly as the source treats it) and the
unbounded full-payload segment list stored under the paired full key
(`none` = key never set). -/

structure CaptureSlot where
  preview : String
  full : Option (List String)
deriving Repr, DecidableEq

def initSlot : CaptureSlot := ⟨"", none⟩

/-- `maxLogPayloadRunes` from the source. -/
def maxLogPayloadRunes : Nat := 2048

/-- `truncatedSuffix`: `fmt.Sprintf("… [truncated %d chars]", overflow)`;
the source clamps negative overflow to `0`, which `Nat` makes implicit. -/
def truncatedSuffix (overflow : Nat) : String :=
  "… [truncated " ++ toString overflow ++ " chars]"

/-- First `n` code points of `s`, as `string([]rune(s)[:n])` does in Go. -/
def strTake (s : String) (n : Nat) : String := String.mk (s.data.take n)

/-- `strings.TrimSpace`: strip leading and trailing whitespace code points.
Go's `unicode.IsSpace` also covers `\v`, `\f` and some exotic Unicode
spaces; the streamed SSE payloads only carry the four covered by
`Char.isWhitespace`. -/
def strTrim (s : String) : String :=
  String.mk
    (((s.data.dropWhile Char.isWhitespace).reverse.dropWhile
        Char.isWhitespace).reverse)

/-- `strings.Join(segments, "")`. -/
def strConcat (l : List String) : String := l.foldl (· ++ ·) ""

/-- `strings.Contains(existing, "[truncated")`.  ASCII byte-level substring
search on valid UTF-8 coincides with code-point-level infix search. -/
def containsTruncated (s : String) : Bool :=
  decide ("[truncated".data <:+: s.data)

/-- `applyLogLimit` from the source. -/
def applyLogLimit (value : String) : String :=
  if value.length ≤ maxLogPayloadRunes then value
  else strTake value maxLogPayloadRunes
    ++ truncatedSuffix (value.length - maxLogPayloadRunes)

/-- `isBinaryPayload`.  Lean strings are always valid UTF-8, so the
`!utf8.Valid` early exit is unreachable in the embedding; the 256-byte
sample window is modelled as a 256-code-point window (identical on ASCII
payloads).  `unicode.IsPrint(r)` is false for every `r < 0x20`, so the
control test reduces to the char-class check below. -/
def isBinaryPayload (data : String) : Bool :=
  if data = "" then false
  else
    let sample := data.data.take 256
    let controlCount :=
      (sample.filter fun r =>
        r ≠ '\n' && r ≠ '\r' && r ≠ '\t' && r.toNat < 0x20).length
    decide (controlCount > sample.length / 10)

/-- `[binary payload omitted: N bytes]`. -/
def binaryMarker (bytes : Nat) : String :=
  "[binary payload omitted: " ++ toString bytes ++ " bytes]"

/-- `formatPayloadForLog`. -/
def formatPayloadForLog (data : String) : String :=
  if data = "" then ""
  else if isBinaryPayload data then binaryMarker data.utf8ByteSize
  else applyLogLimit data

/-- `setPayloadIfEmpty`. -/
def setPayloadIfEmpty (st : CaptureSlot) (value : String) : CaptureSlot :=
  if value = "" then st
  else if st.preview ≠ "" then st
  else { st with preview := value }

/-- `setFullPayload` (unconditionally overwrites the full-payload key). -/
def setFullPayload (st : CaptureSlot) (segments : List String) : CaptureSlot :=
  { st with full := some segments }

/-- `appendFullPayloadSegment`. -/
def appendFullPayloadSegment (st : CaptureSlot) (segment : String) : CaptureSlot :=
  if segment = "" then st
  else
    match st.full with
    | some l => { st with full := some (l ++ [segment]) }
    | none => { st with full := some [segment] }

/-- `CapturePayloadForLog` (byte-slice capture). -/
def CapturePayloadForLog (st : CaptureSlot) (data : String) : CaptureSlot :=
  let st1 := setPayloadIfEmpty st (formatPayloadForLog data)
  if data ≠ "" && !isBinaryPayload data then setFullPayload st1 [data] else st1

/-- `CapturePayloadStringForLog`. -/
def CapturePayloadStringForLog (st : CaptureSlot) (value : String) : CaptureSlot :=
  if value = "" then st
  else setFullPayload (setPayloadIfEmpty st (applyLogLimit value)) [value]

/-- `AppendPayloadChunkForLog`.  The source's local variables
`chunk := strings.TrimSpace(chunk)`, `existing`, `total` and `remaining`
are inlined; `remaining ≤ 0` is `maxLogPayloadRunes ≤ existing.length`. -/
def AppendPayloadChunkForLog (st : CaptureSlot) (chunk0 : String) : CaptureSlot :=
  if strTrim chunk0 = "" ∨ strTrim chunk0 = "[DONE]" then st
  else if st.preview = "" then
    appendFullPayloadSegment
      { st with preview := applyLogLimit (strTrim chunk0) } (strTrim chunk0)
  else if containsTruncated st.preview then
    appendFullPayloadSegment st (strTrim chunk0)
  else if st.preview.length + (strTrim chunk0).length ≤ maxLogPayloadRunes then
    appendFullPayloadSegment
      { st with preview := st.preview ++ strTrim chunk0 } (strTrim chunk0)
  else if maxLogPayloadRunes ≤ st.preview.length then
    appendFullPayloadSegment
      { st with preview :=
          strTake st.preview maxLogPayloadRunes
            ++ truncatedSuffix (strTrim chunk0).length } (strTrim chunk0)
  else
    appendFullPayloadSegment
      { st with preview :=
          (st.preview ++ strTake (strTrim chunk0) (maxLogPayloadRunes - st.preview.length)
            ++ truncatedSuffix
              (st.preview.length + (strTrim chunk0).length - maxLogPayloadRunes)) }
      (strTrim chunk0)

/-- `GetFullPayloadString` read against the full-payload key:
`strings.Join(segments, "")`, `""` when the key was never set. -/
def GetFullPayloadString (st : CaptureSlot) : String :=
  strConcat (st.full.getD [])

/-- One capture operation on a slot, for reasoning about arbitrary
interleavings of the three exported capture entry points. -/
inductive CaptureOp where
  | captureBytes (data : String)
  | captureString (v : String)
  | appendChunk (c : String)
deriving Repr, DecidableEq

def applyCaptureOp (st : CaptureSlot) : CaptureOp → CaptureSlot
  | .captureBytes data => CapturePayloadForLog st data
  | .captureString v => CapturePayloadStringForLog st v
  | .appendChunk c => AppendPayloadChunkForLog st c

def runCaptureOps (ops : List CaptureOp) : CaptureSlot :=
  ops.foldl applyCaptureOp initSlot

/-- A chunk survives the trim/sentinel filter of `AppendPayloadChunkForLog`. -/
def effectiveChunk (c : String) : Bool :=
  !(strTrim c = "" || strTrim c = "[DONE]")

/-- The payload segments a streaming sequence contributes to the full
payload: the trimmed chunks, minus blanks and the `[DONE]` sentinel. -/
def effectiveSegments (chunks : List String) : List String :=
  (chunks.filter effectiveChunk).map strTrim

/-- Streaming-only capture run (the response path of S2-style requests). -/
def runAppendChunks (chunks : List String) : CaptureSlot :=
  chunks.foldl AppendPayloadChunkForLog initSlot

/-! ### String bridge lemmas -/

theorem strLength_data (s : String) : s.length = s.data.length := rfl

theorem strTake_of_le (s : String) (n : Nat) (h : s.length ≤ n) :
    strTake s n = s := by
  apply String.ext
  show (s.data.take n) = s.data
  exact List.take_of_length_le h

theorem length_strTake (s : String) (n : Nat) :
    (strTake s n).length = min n s.length := by
  show (s.data.take n).length = min n s.data.length
  exact List.length_take n s.data

theorem strTake_append_left (a b : String) (n : Nat) (h : n ≤ a.length) :
    strTake (a ++ b) n = strTake a n := by
  apply String.ext
  show ((a ++ b).data.take n) = a.data.take n
  rw [String.data_append, List.take_append_eq_append_take]
  have h0 : n - a.data.length = 0 := by
    have := strLength_data a
    omega
  rw [h0, List.take_zero, List.append_nil]

theorem strTake_append_add (a b : String) (k : Nat) :
    strTake (a ++ b) (a.length + k) = a ++ strTake b k := by
  apply String.ext
  show ((a ++ b).data.take (a.length + k)) = (a ++ strTake b k).data
  rw [String.data_append, String.data_append, List.take_append_eq_append_take]
  have h1 : a.data.take (a.length + k) = a.data :=
    List.take_of_length_le (by rw [← strLength_data]; omega)
  have h2 : a.length + k - a.data.length = k := by
    rw [← strLength_data]; omega
  rw [h1, h2]
  rfl

theorem ne_empty_of_length_pos {s : String} (h : 0 < s.length) : s ≠ "" := by
  intro hs
  rw [hs] at h
  simp at h

theorem truncatedSuffix_decomp (N : Nat) :
    truncatedSuffix N
      = ("… " ++ "[truncated") ++ (" " ++ toString N ++ " chars]") := by
  apply String.ext
  simp only [truncatedSuffix, String.data_append]
  simp [List.append_assoc, List.cons_append, List.nil_append]

theorem length_truncatedSuffix (N : Nat) :
    (truncatedSuffix N).length = 20 + (toString N).length := by
  unfold truncatedSuffix
  rw [String.length_append, String.length_append]
  have h1 : "… [truncated ".length = 13 := by decide
  have h2 : " chars]".length = 7 := by decide
  omega

theorem containsTruncated_suffix (q : String) (N : Nat) :
    containsTruncated (q ++ truncatedSuffix N) = true := by
  unfold containsTruncated
  apply decide_eq_true
  refine ⟨q.data ++ "… ".data, (" " ++ toString N ++ " chars]").data, ?_⟩
  rw [truncatedSuffix_decomp]
  simp only [String.data_append, List.append_assoc]

theorem strConcat_snoc (l : List String) (s : String) :
    strConcat (l ++ [s]) = strConcat l ++ s := by
  simp [strConcat, List.foldl_append]

theorem empty_append_str (s : String) : "" ++ s = s := by
  apply String.ext
  show ("" ++ s).data = s.data
  rw [String.data_append]
  rfl

theorem append_empty_str (s : String) : s ++ "" = s := by
  apply String.ext
  show (s ++ "").data = s.data
  rw [String.data_append]
  simp

theorem strConcat_foldl_acc (l : List String) (x : String) :
    l.foldl (· ++ ·) x = x ++ strConcat l := by
  induction l generalizing x with
  | nil => simp [strConcat, append_empty_str]
  | cons a rest ih =>
    show List.foldl (· ++ ·) (x ++ a) rest = x ++ strConcat (a :: rest)
    rw [ih (x ++ a)]
    have h : strConcat (a :: rest) = ("" ++ a) ++ strConcat rest := by
      show List.foldl (· ++ ·) ("" ++ a) rest = ("" ++ a) ++ strConcat rest
      exact ih ("" ++ a)
    rw [h, empty_append_str, String.append_assoc]

theorem strConcat_cons (a : String) (l : List String) :
    strConcat (a :: l) = a ++ strConcat l := by
  show List.foldl (· ++ ·) ("" ++ a) l = a ++ strConcat l
  rw [strConcat_foldl_acc, empty_append_str]

/-! ### Effect of the capture operations on each slot field -/

theorem preview_setFullPayload (st : CaptureSlot) (l : List String) :
    (setFullPayload st l).preview = st.preview := rfl

theorem preview_appendFullPayloadSegment (st : CaptureSlot) (seg : String) :
    (appendFullPayloadSegment st seg).preview = st.preview := by
  unfold appendFullPayloadSegment
  split
  · rfl
  · split <;> rfl

theorem full_appendFullPayloadSegment (st : CaptureSlot) (seg : String)
    (h : seg ≠ "") :
    (appendFullPayloadSegment st seg).full
      = some ((st.full.getD []) ++ [seg]) := by
  unfold appendFullPayloadSegment
  rw [if_neg h]
  cases hf : st.full <;> simp [hf]

theorem preview_setPayloadIfEmpty (st : CaptureSlot) (v : String) :
    (setPayloadIfEmpty st v).preview
      = if v = "" then st.preview
        else if st.preview = "" then v else st.preview := by
  unfold setPayloadIfEmpty
  by_cases h1 : v = ""
  · rw [if_pos h1, if_pos h1]
  · rw [if_neg h1, if_neg h1]
    by_cases h2 : st.preview = ""
    · rw [if_neg (by simpa using h2), if_pos h2]
    · rw [if_pos (by simpa using h2), if_neg h2]

/-- The preview well-formedness invariant: at most the limit, or a
prefix of at most the limit followed by the truncation suffix, or the
binary-payload marker. -/
def PreviewWF (p : String) : Prop :=
  p.length ≤ maxLogPayloadRunes
  ∨ (∃ q N, p = q ++ truncatedSuffix N ∧ q.length ≤ maxLogPayloadRunes)
  ∨ (∃ n, p = binaryMarker n)

theorem previewWF_empty : PreviewWF "" := by
  left
  simp [maxLogPayloadRunes]

theorem previewWF_applyLogLimit (v : String) : PreviewWF (applyLogLimit v) := by
  unfold applyLogLimit
  split
  · left
    assumption
  · right
    left
    refine ⟨strTake v maxLogPayloadRunes, v.length - maxLogPayloadRunes, rfl, ?_⟩
    rw [length_strTake]
    exact min_le_left _ _

theorem previewWF_formatPayloadForLog (data : String) :
    PreviewWF (formatPayloadForLog data) := by
  unfold formatPayloadForLog
  split
  · exact previewWF_empty
  · split
    · right
      right
      exact ⟨_, rfl⟩
    · exact previewWF_applyLogLimit data

/-- Branch-level description of the preview written by
`AppendPayloadChunkForLog`. -/
theorem appendChunk_preview_cases (st : CaptureSlot) (c : String) :
    (AppendPayloadChunkForLog st c).preview
      = if strTrim c = "" ∨ strTrim c = "[DONE]" then st.preview
        else if st.preview = "" then applyLogLimit (strTrim c)
        else if containsTruncated st.preview then st.preview
        else if st.preview.length + (strTrim c).length ≤ maxLogPayloadRunes then
          st.preview ++ strTrim c
        else if maxLogPayloadRunes ≤ st.preview.length then
          strTake st.preview maxLogPayloadRunes
            ++ truncatedSuffix (strTrim c).length
        else
          st.preview ++ strTake (strTrim c) (maxLogPayloadRunes - st.preview.length)
            ++ truncatedSuffix
                (st.preview.length + (strTrim c).length - maxLogPayloadRunes) := by
  unfold AppendPayloadChunkForLog
  by_cases h1 : strTrim c = "" ∨ strTrim c = "[DONE]"
  · rw [if_pos h1, if_pos h1]
  · rw [if_neg h1, if_neg h1]
    by_cases h2 : st.preview = ""
    · rw [if_pos h2, if_pos h2, preview_appendFullPayloadSegment]
    · rw [if_neg h2, if_neg h2]
      by_cases h3 : containsTruncated st.preview = true
      · rw [if_pos h3, if_pos h3, preview_appendFullPayloadSegment]
      · rw [if_neg h3, if_neg h3]
        by_cases h4 : st.preview.length + (strTrim c).length ≤ maxLogPayloadRunes
        · rw [if_pos h4, if_pos h4, preview_appendFullPayloadSegment]
        · rw [if_neg h4, if_neg h4]
          by_cases h5 : maxLogPayloadRunes ≤ st.preview.length
          · rw [if_pos h5, if_pos h5, preview_appendFullPayloadSegment]
          · rw [if_neg h5, if_neg h5, preview_appendFullPayloadSegment]

theorem previewWF_appendChunk (st : CaptureSlot) (c : String)
    (h : PreviewWF st.preview) :
    PreviewWF (AppendPayloadChunkForLog st c).preview := by
  rw [appendChunk_preview_cases]
  split
  · exact h
  · split
    · exact previewWF_applyLogLimit _
    · split
      · exact h
      · split
        · next hle =>
          left
          rw [String.length_append]
          exact hle
        · split
          · right
            left
            refine ⟨_, _, rfl, ?_⟩
            rw [length_strTake]
            exact min_le_left _ _
          · next h1 h2 =>
            right
            left
            refine ⟨st.preview ++ strTake (strTrim c)
              (maxLogPayloadRunes - st.preview.length), _, rfl, ?_⟩
            push_neg at h2
            rw [String.length_append, length_strTake]
            have hm : min (maxLogPayloadRunes - st.preview.length) (strTrim c).length
                = maxLogPayloadRunes - st.preview.length := by
              apply min_eq_left
              omega
            omega

theorem previewWF_applyCaptureOp (st : CaptureSlot) (op : CaptureOp)
    (h : PreviewWF st.preview) :
    PreviewWF (applyCaptureOp st op).preview := by
  cases op with
  | captureBytes data =>
    show PreviewWF (CapturePayloadForLog st data).preview
    unfold CapturePayloadForLog
    have hkey : PreviewWF (setPayloadIfEmpty st (formatPayloadForLog data)).preview := by
      rw [preview_setPayloadIfEmpty]
      split
      · exact h
      · split
        · exact previewWF_formatPayloadForLog data
        · exact h
    split
    · rwa [preview_setFullPayload]
    · exact hkey
  | captureString v =>
    show PreviewWF (CapturePayloadStringForLog st v).preview
    unfold CapturePayloadStringForLog
    split
    · exact h
    · rw [preview_setFullPayload, preview_setPayloadIfEmpty]
      split
      · exact h
      · split
        · exact previewWF_applyLogLimit v
        · exact h
  | appendChunk c => exact previewWF_appendChunk st c h

theorem previewWF_foldl (ops : List CaptureOp) (st : CaptureSlot)
    (h : PreviewWF st.preview) :
    PreviewWF (ops.foldl applyCaptureOp st).preview := by
  induction ops generalizing st with
  | nil => exact h
  | cons op rest ih => exact ih _ (previewWF_applyCaptureOp st op h)

theorem previewWF_runCaptureOps (ops : List CaptureOp) :
    PreviewWF (runCaptureOps ops).preview :=
  previewWF_foldl ops initSlot previewWF_empty

/-- The frozen-preview rule: once the preview carries a truncation suffix,
`AppendPayloadChunkForLog` never changes it again. -/
theorem appendChunk_frozen (st : CaptureSlot) (c : String) (q : String) (N : Nat)
    (h : st.preview = q ++ truncatedSuffix N) :
    (AppendPayloadChunkForLog st c).preview = st.preview := by
  have hne : st.preview ≠ "" := by
    apply ne_empty_of_length_pos
    rw [h, String.length_append, length_truncatedSuffix]
    omega
  have htr : containsTruncated st.preview = true := by
    rw [h]
    exact containsTruncated_suffix q N
  rw [appendChunk_preview_cases]
  by_cases h1 : strTrim c = "" ∨ strTrim c = "[DONE]"
  · rw [if_pos h1]
  · rw [if_neg h1, if_neg hne, if_pos htr]

/-- The overflowing step: from a suffix-free preview within the limit, an
effective chunk that overflows produces the limit-length prefix of
(preview ++ chunk) followed by the suffix recording the code points
dropped at this step. -/
theorem appendChunk_overflow (st : CaptureSlot) (c : String)
    (h1 : containsTruncated st.preview = false)
    (h2 : st.preview.length ≤ maxLogPayloadRunes)
    (h3 : strTrim c ≠ "") (h4 : strTrim c ≠ "[DONE]")
    (h5 : maxLogPayloadRunes < st.preview.length + (strTrim c).length) :
    (AppendPayloadChunkForLog st c).preview
      = strTake (st.preview ++ strTrim c) maxLogPayloadRunes
        ++ truncatedSuffix
            (st.preview.length + (strTrim c).length - maxLogPayloadRunes) := by
  rw [appendChunk_preview_cases]
  rw [if_neg (by simp [h3, h4])]
  by_cases hemp : st.preview = ""
  · rw [if_pos hemp]
    rw [hemp] at h5 ⊢
    have h0 : ("" : String).length = 0 := rfl
    rw [h0] at h5
    rw [h0, empty_append_str, Nat.zero_add]
    unfold applyLogLimit
    rw [if_neg (by omega)]
  · rw [if_neg hemp, if_neg (by simp [h1]), if_neg (by omega)]
    by_cases hat : maxLogPayloadRunes ≤ st.preview.length
    · have heq : st.preview.length = maxLogPayloadRunes := le_antisymm h2 hat
      rw [if_pos hat]
      rw [strTake_append_left st.preview (strTrim c) maxLogPayloadRunes hat]
      have harg : st.preview.length + (strTrim c).length - maxLogPayloadRunes
          = (strTrim c).length := by omega
      rw [harg]
    · rw [if_neg hat]
      push_neg at hat
      have hsplit : maxLogPayloadRunes
          = st.preview.length + (maxLogPayloadRunes - st.preview.length) := by
        omega
      have htk : strTake (st.preview ++ strTrim c) maxLogPayloadRunes
          = st.preview ++ strTake (strTrim c) (maxLogPayloadRunes - st.preview.length) := by
        conv_lhs => rw [hsplit]
        exact strTake_append_add _ _ _
      rw [htk, String.append_assoc]

/-- An ineffective chunk (blank after trimming, or the `[DONE]` sentinel)
is a complete no-op on the slot. -/
theorem appendChunk_skip (st : CaptureSlot) (c : String)
    (h : effectiveChunk c = false) :
    AppendPayloadChunkForLog st c = st := by
  unfold effectiveChunk at h
  rw [Bool.not_eq_false', Bool.or_eq_true, decide_eq_true_eq, decide_eq_true_eq] at h
  unfold AppendPayloadChunkForLog
  rw [if_pos h]

theorem effectiveChunk_true_iff (c : String) :
    effectiveChunk c = true ↔ (strTrim c ≠ "" ∧ strTrim c ≠ "[DONE]") := by
  unfold effectiveChunk
  rw [Bool.not_eq_true', Bool.or_eq_false_iff, decide_eq_false_iff_not,
    decide_eq_false_iff_not]

/-- Every effective chunk extends the full payload by exactly one segment:
its trimmed text. -/
theorem appendChunk_full (st : CaptureSlot) (c : String)
    (h : effectiveChunk c = true) :
    (AppendPayloadChunkForLog st c).full
      = some ((st.full.getD []) ++ [strTrim c]) := by
  obtain ⟨hA, hB⟩ := (effectiveChunk_true_iff c).mp h
  have hc : ¬(strTrim c = "" ∨ strTrim c = "[DONE]") := by
    rw [not_or]
    exact ⟨hA, hB⟩
  unfold AppendPayloadChunkForLog
  rw [if_neg hc]
  split
  · rw [full_appendFullPayloadSegment _ _ hA]
  · split
    · rw [full_appendFullPayloadSegment _ _ hA]
    · split
      · rw [full_appendFullPayloadSegment _ _ hA]
      · split
        · rw [full_appendFullPayloadSegment _ _ hA]
        · rw [full_appendFullPayloadSegment _ _ hA]

theorem getFull_appendChunk (st : CaptureSlot) (c : String) :
    GetFullPayloadString (AppendPayloadChunkForLog st c)
      = GetFullPayloadString st
        ++ (if effectiveChunk c then strTrim c else "") := by
  by_cases h : effectiveChunk c
  · rw [if_pos h]
    unfold GetFullPayloadString
    rw [appendChunk_full st c h]
    simp [strConcat_snoc]
  · rw [if_neg h]
    rw [appendChunk_skip st c (by simpa using h), append_empty_str]

theorem getFull_foldl (chunks : List String) (st : CaptureSlot) :
    GetFullPayloadString (chunks.foldl AppendPayloadChunkForLog st)
      = GetFullPayloadString st ++ strConcat (effectiveSegments chunks) := by
  induction chunks generalizing st with
  | nil =>
    simp [effectiveSegments, strConcat, append_empty_str]
  | cons c rest ih =>
    rw [List.foldl_cons, ih]
    rw [getFull_appendChunk]
    by_cases h : effectiveChunk c
    · rw [if_pos h]
      have hseg : effectiveSegments (c :: rest) = strTrim c :: effectiveSegments rest := by
        simp [effectiveSegments, List.filter_cons, h]
      rw [hseg, strConcat_cons, String.append_assoc]
    · rw [if_neg h]
      have hseg : effectiveSegments (c :: rest) = effectiveSegments rest := by
        simp [effectiveSegments, List.filter_cons, h]
      rw [hseg, append_empty_str]

theorem strLength_pos_iff (s : String) : 0 < s.length ↔ s ≠ "" := by
  rw [strLength_data, List.length_pos]
  constructor
  · intro h hs
    exact h (by rw [hs] : s.data = [])
  · intro h hd
    exact h (String.ext hd)

theorem preview_setPayloadIfEmpty_fresh (v : String) :
    (setPayloadIfEmpty initSlot v).preview = v := by
  rw [preview_setPayloadIfEmpty]
  by_cases hv : v = ""
  · simp [hv, initSlot]
  · simp [hv, initSlot]

/-- C5 (amended).  (1) Every reachable preview is within the
2048-code-point limit, or is a prefix of at most 2048 code points followed
by a truncation suffix, or is the binary-payload marker.  (2) The chunk
that overflows a suffix-free preview yields the 2048-code-point prefix of
(preview ++ chunk) plus `… [truncated N chars]` with N = code points seen
by the preview up to and including that chunk, minus 2048.  (3) After
truncation the preview (and its N) never changes again.  (4)/(5) For a
single buffered capture, N is exactly the original code-point count minus
2048. -/
theorem C5_preview_invariant :
    (∀ ops : List CaptureOp, PreviewWF (runCaptureOps ops).preview)
    ∧ (∀ st c, containsTruncated st.preview = false →
        st.preview.length ≤ maxLogPayloadRunes →
        strTrim c ≠ "" → strTrim c ≠ "[DONE]" →
        maxLogPayloadRunes < st.preview.length + (strTrim c).length →
        (AppendPayloadChunkForLog st c).preview
          = strTake (st.preview ++ strTrim c) maxLogPayloadRunes
            ++ truncatedSuffix
                (st.preview.length + (strTrim c).length - maxLogPayloadRunes))
    ∧ (∀ st c q N, st.preview = q ++ truncatedSuffix N →
        (AppendPayloadChunkForLog st c).preview = st.preview)
    ∧ (∀ data, isBinaryPayload data = false →
        maxLogPayloadRunes < data.length →
        (CapturePayloadForLog initSlot data).preview
          = strTake data maxLogPayloadRunes
            ++ truncatedSuffix (data.length - maxLogPayloadRunes))
    ∧ (∀ v, maxLogPayloadRunes < v.length →
        (CapturePayloadStringForLog initSlot v).preview
          = strTake v maxLogPayloadRunes
            ++ truncatedSuffix (v.length - maxLogPayloadRunes)) := by
  refine ⟨previewWF_runCaptureOps, appendChunk_overflow, appendChunk_frozen, ?_, ?_⟩
  · intro data hbin hlen
    have hne : data ≠ "" := by
      rw [← strLength_pos_iff]
      omega
    show (CapturePayloadForLog initSlot data).preview = _
    unfold CapturePayloadForLog
    rw [if_pos (by simp [hne, hbin])]
    rw [preview_setFullPayload, preview_setPayloadIfEmpty_fresh]
    unfold formatPayloadForLog
    rw [if_neg hne, if_neg (by simp [hbin])]
    unfold applyLogLimit
    rw [if_neg (by omega)]
  · intro v hlen
    have hne : v ≠ "" := by
      rw [← strLength_pos_iff]
      omega
    show (CapturePayloadStringForLog initSlot v).preview = _
    unfold CapturePayloadStringForLog
    rw [if_neg hne, preview_setFullPayload, preview_setPayloadIfEmpty_fresh]
    unfold applyLogLimit
    rw [if_neg (by omega)]

/-- Witness for C5: the frozen-preview clause at a concrete slot whose
preview already carries the suffix `… [truncated 0 chars]`. -/
theorem C5_preview_invariant_witness :
    (AppendPayloadChunkForLog ⟨"x" ++ truncatedSuffix 0, none⟩ "y").preview
      = "x" ++ truncatedSuffix 0 :=
  C5_preview_invariant.2.2.1 ⟨"x" ++ truncatedSuffix 0, none⟩ "y" "x" 0 rfl

/-- A 2049-code-point chunk used to exhibit the streaming truncation
behaviour. -/
def bigChunk : String := String.mk (List.replicate 2049 'a')

theorem dropWhile_replicate_of_false {p : Char → Bool} {a : Char}
    (h : p a = false) (n : Nat) :
    List.dropWhile p (List.replicate n a) = List.replicate n a := by
  induction n with
  | zero => rfl
  | succ m ih =>
    rw [List.replicate_succ, List.dropWhile_cons, h]
    simp

theorem strTrim_replicate_a (n : Nat) :
    strTrim (String.mk (List.replicate n 'a')) = String.mk (List.replicate n 'a') := by
  unfold strTrim
  have h : Char.isWhitespace 'a' = false := by decide
  rw [show (String.mk (List.replicate n 'a')).data = List.replicate n 'a' from rfl]
  rw [dropWhile_replicate_of_false h, List.reverse_replicate,
    dropWhile_replicate_of_false h, List.reverse_replicate]

theorem containsTruncated_replicate_a (n : Nat) :
    containsTruncated (String.mk (List.replicate n 'a')) = false := by
  unfold containsTruncated
  apply decide_eq_false
  intro h
  have hmem : '[' ∈ List.replicate n 'a' :=
    h.subset (by decide : '[' ∈ "[truncated".data)
  have := List.eq_of_mem_replicate hmem
  exact absurd this (by decide)

theorem replicate_a_ne_empty {n : Nat} (h : 0 < n) :
    String.mk (List.replicate n 'a') ≠ "" := by
  apply ne_empty_of_length_pos
  show 0 < (List.replicate n 'a').length
  simpa using h

theorem length_replicate_str (n : Nat) :
    (String.mk (List.replicate n 'a')).length = n := by
  show (List.replicate n 'a').length = n
  simp

theorem captureSlot_eq (a b : CaptureSlot) (h1 : a.preview = b.preview)
    (h2 : a.full = b.full) : a = b := by
  cases a
  cases b
  cases h1
  cases h2
  rfl

theorem bigChunk_length : bigChunk.length = 2049 :=
  length_replicate_str 2049

theorem bigChunk_ne_done : bigChunk ≠ "[DONE]" := by
  intro h
  have hl := congrArg String.length h
  rw [bigChunk_length] at hl
  have h6 : ("[DONE]" : String).length = 6 := by decide
  omega

theorem applyLogLimit_bigChunk :
    applyLogLimit bigChunk
      = String.mk (List.replicate 2048 'a') ++ truncatedSuffix 1 := by
  unfold applyLogLimit
  rw [bigChunk_length]
  rw [if_neg (by norm_num [maxLogPayloadRunes])]
  have h1 : strTake bigChunk maxLogPayloadRunes = String.mk (List.replicate 2048 'a') := by
    apply String.ext
    show (List.replicate 2049 'a').take maxLogPayloadRunes = List.replicate 2048 'a'
    rw [List.take_replicate]
    norm_num [maxLogPayloadRunes]
  have h2 : 2049 - maxLogPayloadRunes = 1 := by norm_num [maxLogPayloadRunes]
  rw [h1, h2]

theorem bigChunk_effective : effectiveChunk bigChunk = true := by
  have htrim : strTrim bigChunk = bigChunk := strTrim_replicate_a 2049
  rw [effectiveChunk_true_iff, htrim]
  exact ⟨replicate_a_ne_empty (by norm_num), bigChunk_ne_done⟩

theorem step1_bigChunk :
    AppendPayloadChunkForLog initSlot bigChunk
      = ⟨String.mk (List.replicate 2048 'a') ++ truncatedSuffix 1, some [bigChunk]⟩ := by
  have htrim : strTrim bigChunk = bigChunk := strTrim_replicate_a 2049
  have hne : bigChunk ≠ "" := replicate_a_ne_empty (by norm_num)
  have hinit : initSlot.preview = "" := rfl
  apply captureSlot_eq
  · rw [appendChunk_preview_cases, htrim]
    rw [if_neg (not_or.mpr ⟨hne, bigChunk_ne_done⟩)]
    rw [hinit, if_pos rfl]
    exact applyLogLimit_bigChunk
  · rw [appendChunk_full initSlot bigChunk bigChunk_effective, htrim]
    simp [initSlot]

theorem step2_bigChunk :
    runCaptureOps [CaptureOp.appendChunk bigChunk, CaptureOp.appendChunk "bb"]
      = ⟨String.mk (List.replicate 2048 'a') ++ truncatedSuffix 1,
          some [bigChunk, "bb"]⟩ := by
  have hrun : runCaptureOps [CaptureOp.appendChunk bigChunk, CaptureOp.appendChunk "bb"]
      = AppendPayloadChunkForLog (AppendPayloadChunkForLog initSlot bigChunk) "bb" := by
    simp only [runCaptureOps, List.foldl_cons, List.foldl_nil, applyCaptureOp]
  rw [hrun, step1_bigChunk]
  have hfroz := appendChunk_frozen
    ⟨String.mk (List.replicate 2048 'a') ++ truncatedSuffix 1, some [bigChunk]⟩
    "bb" (String.mk (List.replicate 2048 'a')) 1 rfl
  have hfull := appendChunk_full
    ⟨String.mk (List.replicate 2048 'a') ++ truncatedSuffix 1, some [bigChunk]⟩
    "bb" (by decide)
  have htrimbb : strTrim "bb" = "bb" := by decide
  rw [htrimbb] at hfull
  exact captureSlot_eq _ _ hfroz (by simpa using hfull)

theorem getFull_big :
    GetFullPayloadString
        (runCaptureOps [CaptureOp.appendChunk bigChunk, CaptureOp.appendChunk "bb"])
      = bigChunk ++ "bb" := by
  rw [step2_bigChunk]
  show strConcat [bigChunk, "bb"] = bigChunk ++ "bb"
  rw [strConcat_cons, strConcat_cons]
  show bigChunk ++ ("bb" ++ strConcat []) = bigChunk ++ "bb"
  rw [show strConcat [] = "" from rfl, append_empty_str]

/-- C5 counterexample.  After the streaming sequence
[2049 × 'a', "bb"], the full payload holds 2051 code points, so the
claim requires the preview to end in `… [truncated 3 chars]`; the code
leaves the suffix at the value computed when truncation happened
(`… [truncated 1 chars]`) and never updates it. -/
theorem C5_counterexample :
    (runCaptureOps [CaptureOp.appendChunk bigChunk, CaptureOp.appendChunk "bb"]).preview
        = String.mk (List.replicate 2048 'a') ++ truncatedSuffix 1
    ∧ (GetFullPayloadString
        (runCaptureOps [CaptureOp.appendChunk bigChunk, CaptureOp.appendChunk "bb"])).length
        - maxLogPayloadRunes = 3
    ∧ ¬ ∃ q : String,
        (runCaptureOps [CaptureOp.appendChunk bigChunk, CaptureOp.appendChunk "bb"]).preview
          = q ++ truncatedSuffix 3 := by
  refine ⟨by rw [step2_bigChunk], ?_, ?_⟩
  · rw [getFull_big, String.length_append, bigChunk_length]
    have h2 : ("bb" : String).length = 2 := by decide
    rw [h2]
    norm_num [maxLogPayloadRunes]
  · rintro ⟨q, hq⟩
    rw [step2_bigChunk] at hq
    have hdata := congrArg String.data hq
    rw [String.data_append, String.data_append] at hdata
    have hlen : (truncatedSuffix 1).data.length = (truncatedSuffix 3).data.length := by
      decide
    have := (List.append_inj' hdata hlen).2
    exact absurd this (by decide)

/-- C6.  Per-chunk semantics of `AppendPayloadChunkForLog`: blanks and the
`[DONE]` sentinel are complete no-ops; every other chunk appends its
trimmed text as one segment of the full payload; the first chunk seeds the
preview through `applyLogLimit`; while the preview has room the chunk is
appended in full, or partially with the truncation suffix on overflow
(also when the preview sits exactly at the limit); once the preview
carries a truncation suffix it never changes again. -/
theorem C6_append_chunk_semantics :
    (∀ st c, effectiveChunk c = false → AppendPayloadChunkForLog st c = st)
    ∧ (∀ st c, effectiveChunk c = true →
        (AppendPayloadChunkForLog st c).full
          = some ((st.full.getD []) ++ [strTrim c]))
    ∧ (∀ st c, effectiveChunk c = true → st.preview = "" →
        (AppendPayloadChunkForLog st c).preview = applyLogLimit (strTrim c))
    ∧ (∀ st c, effectiveChunk c = true → containsTruncated st.preview = false →
        st.preview ≠ "" →
        st.preview.length + (strTrim c).length ≤ maxLogPayloadRunes →
        (AppendPayloadChunkForLog st c).preview = st.preview ++ strTrim c)
    ∧ (∀ st c, effectiveChunk c = true → containsTruncated st.preview = false →
        st.preview.length = maxLogPayloadRunes →
        (AppendPayloadChunkForLog st c).preview
          = st.preview ++ truncatedSuffix (strTrim c).length)
    ∧ (∀ st c, effectiveChunk c = true → containsTruncated st.preview = false →
        st.preview ≠ "" → st.preview.length < maxLogPayloadRunes →
        maxLogPayloadRunes < st.preview.length + (strTrim c).length →
        (AppendPayloadChunkForLog st c).preview
          = st.preview ++ strTake (strTrim c) (maxLogPayloadRunes - st.preview.length)
            ++ truncatedSuffix
                (st.preview.length + (strTrim c).length - maxLogPayloadRunes))
    ∧ (∀ st c q N, st.preview = q ++ truncatedSuffix N →
        (AppendPayloadChunkForLog st c).preview = st.preview) := by
  refine ⟨appendChunk_skip, appendChunk_full, ?_, ?_, ?_, ?_, appendChunk_frozen⟩
  · intro st c heff hemp
    obtain ⟨hA, hB⟩ := (effectiveChunk_true_iff c).mp heff
    rw [appendChunk_preview_cases, if_neg (by rw [not_or]; exact ⟨hA, hB⟩),
      if_pos hemp]
  · intro st c heff hct hne hle
    obtain ⟨hA, hB⟩ := (effectiveChunk_true_iff c).mp heff
    rw [appendChunk_preview_cases, if_neg (by rw [not_or]; exact ⟨hA, hB⟩),
      if_neg hne, if_neg (by simp [hct]), if_pos hle]
  · intro st c heff hct hat
    obtain ⟨hA, hB⟩ := (effectiveChunk_true_iff c).mp heff
    have hpos : 0 < (strTrim c).length := (strLength_pos_iff _).mpr hA
    have hne : st.preview ≠ "" := by
      rw [← strLength_pos_iff]
      rw [hat]
      norm_num [maxLogPayloadRunes]
    rw [appendChunk_preview_cases, if_neg (by rw [not_or]; exact ⟨hA, hB⟩),
      if_neg hne, if_neg (by simp [hct]), if_neg (by omega), if_pos (le_of_eq hat.symm)]
    rw [strTake_of_le st.preview maxLogPayloadRunes (le_of_eq hat)]
  · intro st c heff hct hne hlt hov
    obtain ⟨hA, hB⟩ := (effectiveChunk_true_iff c).mp heff
    rw [appendChunk_preview_cases, if_neg (by rw [not_or]; exact ⟨hA, hB⟩),
      if_neg hne, if_neg (by simp [hct]), if_neg (by omega), if_neg (by omega)]

/-- Witness for C6: appending `" b "` to a slot previewing `"a"` extends
the preview to `"ab"` and the full payload by the trimmed segment. -/
theorem C6_append_chunk_semantics_witness :
    (AppendPayloadChunkForLog ⟨"a", some ["x"]⟩ " b ").preview = "a" ++ strTrim " b " :=
  C6_append_chunk_semantics.2.2.2.1 ⟨"a", some ["x"]⟩ " b " (by decide) (by decide)
    (by decide) (by decide)

/-- C7 (amended).  Reading the stored full payload returns the buffered
payload byte for byte for a single non-binary capture; for a streaming
sequence it returns the concatenation, in arrival order, of the trimmed
upstream event strings, excluding blanks and the `[DONE]` sentinel. -/
theorem C7_full_payload_roundtrip :
    (∀ data, data ≠ "" → isBinaryPayload data = false →
        GetFullPayloadString (CapturePayloadForLog initSlot data) = data)
    ∧ (∀ v, v ≠ "" →
        GetFullPayloadString (CapturePayloadStringForLog initSlot v) = v)
    ∧ (∀ chunks : List String,
        GetFullPayloadString (runAppendChunks chunks)
          = strConcat (effectiveSegments chunks)) := by
  refine ⟨?_, ?_, ?_⟩
  · intro data hne hbin
    unfold CapturePayloadForLog
    rw [if_pos (by simp [hne, hbin])]
    show strConcat [data] = data
    rw [strConcat_cons]
    show data ++ strConcat [] = data
    rw [show strConcat [] = "" from rfl, append_empty_str]
  · intro v hne
    unfold CapturePayloadStringForLog
    rw [if_neg hne]
    show strConcat [v] = v
    rw [strConcat_cons]
    show v ++ strConcat [] = v
    rw [show strConcat [] = "" from rfl, append_empty_str]
  · intro chunks
    unfold runAppendChunks
    rw [getFull_foldl]
    show strConcat [] ++ _ = _
    rw [show strConcat [] = "" from rfl, empty_append_str]

/-- C7 counterexample: the upstream event string `"A\n"` is stored
trimmed, so the full payload reads back `"A"`, not the exact bytes
`"A\n"` the claim requires. -/
theorem C7_counterexample :
    GetFullPayloadString (runAppendChunks ["A\n"]) = "A"
    ∧ GetFullPayloadString (runAppendChunks ["A\n"]) ≠ "A\n" := by
  constructor
  · decide
  · decide

/-- Witness for C7: a concrete buffered capture reads back unchanged. -/
theorem C7_full_payload_roundtrip_witness :
    GetFullPayloadString (CapturePayloadForLog initSlot "hi") = "hi" :=
  C7_full_payload_roundtrip.1 "hi" (by decide) (by decide)

/-! ## Log-detail retention sweep (`model/log_retention.go`,
`pruneExpiredLogDetails`)

The two tables are modelled as lists of rows; GORM's
`Where("created_at < ?", cutoff).Order("created_at ASC").Limit(batch).Delete`
deletes the up-to-`batch` oldest rows matching the filter.  A list models
the table as a multiset: each batch removes the sorted expired prefix and
keeps everything else.  `time.Sleep` between batches and the
`ctx.Err()` cancellation check are real-time/concurrency effects outside
the embedding; the loop is modelled running to completion.  The cutoff
`time.Now().AddDate(0, 0, -days).Unix()` is `now - days * 86400` in
seconds (calendar-day arithmetic coincides with 86400-second days in this
UTC model). -/

structure LogDetail where
  id : Nat
  created_at : Int
deriving Repr, DecidableEq

structure LogRecord where
  id : Nat
  created_at : Int
deriving Repr, DecidableEq

structure LogStore where
  details : List LogDetail
  records : List LogRecord
deriving Repr, DecidableEq

def logDetailCleanupBatchSize : Nat := 5000

/-- The `WHERE created_at < cutoff` filter. -/
def detailExpired (cutoff : Int) (d : LogDetail) : Bool :=
  d.created_at < cutoff

/-- `ORDER BY created_at ASC` over the expired rows. -/
def sortByCreated (l : List LogDetail) : List LogDetail :=
  List.insertionSort (fun a b => a.created_at ≤ b.created_at) l

/-- One `Delete` statement: remove the up-to-batch-size oldest expired
rows; returns the surviving table and `RowsAffected`. -/
def pruneBatch (cutoff : Int) (l : List LogDetail) : List LogDetail × Nat :=
  let expired := sortByCreated (l.filter (detailExpired cutoff))
  (l.filter (fun d => !detailExpired cutoff d)
      ++ expired.drop logDetailCleanupBatchSize,
    (expired.take logDetailCleanupBatchSize).length)

/-- The retry loop of `pruneExpiredLogDetails`: stop when a batch affects
zero rows, or fewer than the batch size (after deleting it); `fuel` bounds
the iterations and is chosen large enough to never bind. -/
def pruneLoop (cutoff : Int) : Nat → List LogDetail → List LogDetail
  | 0, l => l
  | fuel + 1, l =>
    let step := pruneBatch cutoff l
    if step.2 = 0 then l
    else if step.2 < logDetailCleanupBatchSize then step.1
    else pruneLoop cutoff fuel step.1

/-- `pruneExpiredLogDetails` with `common.DetailedLogRetentionDays = days`
and `time.Now().Unix() = now`. -/
def pruneExpiredLogDetails (days now : Int) (s : LogStore) : LogStore :=
  if days ≤ 0 then s
  else
    { s with details :=
        pruneLoop (now - days * 86400) (s.details.length + 1) s.details }

theorem length_sortByCreated (l : List LogDetail) :
    (sortByCreated l).length = l.length :=
  (List.perm_insertionSort _ l).length_eq

theorem mem_sortByCreated {d : LogDetail} {l : List LogDetail} :
    d ∈ sortByCreated l ↔ d ∈ l :=
  (List.perm_insertionSort _ l).mem_iff

theorem pruneBatch_subset (cutoff : Int) (l : List LogDetail) :
    ∀ x ∈ (pruneBatch cutoff l).1, x ∈ l := by
  intro x hx
  rcases List.mem_append.mp hx with hm | hm
  · exact (List.mem_filter.mp hm).1
  · have hE : x ∈ sortByCreated (l.filter (detailExpired cutoff)) :=
      List.mem_of_mem_drop hm
    exact (List.mem_filter.mp (mem_sortByCreated.mp hE)).1

theorem pruneBatch_size (cutoff : Int) (l : List LogDetail) :
    (pruneBatch cutoff l).2 ≤ logDetailCleanupBatchSize := by
  show ((sortByCreated (l.filter (detailExpired cutoff))).take
      logDetailCleanupBatchSize).length ≤ logDetailCleanupBatchSize
  rw [List.length_take]
  exact min_le_left _ _

theorem pruneBatch_count (cutoff : Int) (l : List LogDetail) :
    (pruneBatch cutoff l).2
      = min logDetailCleanupBatchSize (l.filter (detailExpired cutoff)).length := by
  show ((sortByCreated (l.filter (detailExpired cutoff))).take
      logDetailCleanupBatchSize).length = _
  rw [List.length_take, length_sortByCreated]

theorem pruneBatch_residual_qual (cutoff : Int) (l : List LogDetail) :
    ((pruneBatch cutoff l).1.filter (detailExpired cutoff)).length
      = (l.filter (detailExpired cutoff)).length - logDetailCleanupBatchSize := by
  show ((l.filter (fun d => !detailExpired cutoff d)
      ++ (sortByCreated (l.filter (detailExpired cutoff))).drop
          logDetailCleanupBatchSize).filter (detailExpired cutoff)).length = _
  rw [List.filter_append]
  have h1 : (l.filter (fun d => !detailExpired cutoff d)).filter
      (detailExpired cutoff) = [] := by
    rw [List.filter_eq_nil]
    intro a ha
    have := (List.mem_filter.mp ha).2
    simp only [Bool.not_eq_true'] at this
    simp [this]
  have h2 : ((sortByCreated (l.filter (detailExpired cutoff))).drop
      logDetailCleanupBatchSize).filter (detailExpired cutoff)
      = (sortByCreated (l.filter (detailExpired cutoff))).drop
          logDetailCleanupBatchSize := by
    rw [List.filter_eq_self]
    intro a ha
    have hE : a ∈ sortByCreated (l.filter (detailExpired cutoff)) :=
      List.mem_of_mem_drop ha
    exact (List.mem_filter.mp (mem_sortByCreated.mp hE)).2
  rw [h1, h2, List.nil_append, List.length_drop, length_sortByCreated]

theorem pruneLoop_not_expired (cutoff : Int) (fuel : Nat)
    (l : List LogDetail)
    (h : (l.filter (detailExpired cutoff)).length < fuel) :
    ∀ d ∈ pruneLoop cutoff fuel l, detailExpired cutoff d = false := by
  induction fuel generalizing l with
  | zero => omega
  | succ fuel ih =>
    intro d hd
    rw [pruneLoop] at hd
    have hcnt := pruneBatch_count cutoff l
    by_cases h0 : (pruneBatch cutoff l).2 = 0
    · rw [if_pos h0] at hd
      have hq : (l.filter (detailExpired cutoff)).length = 0 := by
        have hb : 0 < logDetailCleanupBatchSize := by
          norm_num [logDetailCleanupBatchSize]
        omega
      have hnil := List.length_eq_zero.mp hq
      by_contra hcon
      exact List.filter_eq_nil.mp hnil d hd (by simpa using hcon)
    · rw [if_neg h0] at hd
      by_cases hlt : (pruneBatch cutoff l).2 < logDetailCleanupBatchSize
      · rw [if_pos hlt] at hd
        rcases List.mem_append.mp hd with hm | hm
        · have := (List.mem_filter.mp hm).2
          simpa using this
        · exfalso
          have hqlt : (l.filter (detailExpired cutoff)).length
              < logDetailCleanupBatchSize := by omega
          have hdrop : (sortByCreated (l.filter (detailExpired cutoff))).drop
              logDetailCleanupBatchSize = [] := by
            apply List.drop_eq_nil_of_le
            rw [length_sortByCreated]
            omega
          rw [hdrop] at hm
          exact absurd hm (List.not_mem_nil d)
      · rw [if_neg hlt] at hd
        have hge : logDetailCleanupBatchSize
            ≤ (l.filter (detailExpired cutoff)).length := by omega
        apply ih (pruneBatch cutoff l).1 _ d hd
        rw [pruneBatch_residual_qual]
        have hb : 0 < logDetailCleanupBatchSize := by
          norm_num [logDetailCleanupBatchSize]
        omega

theorem pruneLoop_subset (cutoff : Int) (fuel : Nat) (l : List LogDetail) :
    ∀ d ∈ pruneLoop cutoff fuel l, d ∈ l := by
  induction fuel generalizing l with
  | zero =>
    intro d hd
    exact hd
  | succ fuel ih =>
    intro d hd
    rw [pruneLoop] at hd
    by_cases h0 : (pruneBatch cutoff l).2 = 0
    · rw [if_pos h0] at hd
      exact hd
    · rw [if_neg h0] at hd
      by_cases hlt : (pruneBatch cutoff l).2 < logDetailCleanupBatchSize
      · rw [if_pos hlt] at hd
        exact pruneBatch_subset cutoff l d hd
      · rw [if_neg hlt] at hd
        exact pruneBatch_subset cutoff l d (ih _ d hd)

/-- C8 (amended).  With a positive retention period, after the sweep every
surviving `LogDetail` satisfies `now - created_at ≤ days × 86400` (the
boundary row with `created_at = cutoff` survives, hence non-strict), no
new rows appear, every batch deletes at most 5000 rows, and no `LogRecord`
is touched.  The 100 ms pause and context cancellation are timing effects
outside the embedding. -/
theorem C8_retention_sweep (days now : Int) (s : LogStore) (hdays : 0 < days) :
    (∀ d ∈ (pruneExpiredLogDetails days now s).details,
        now - d.created_at ≤ days * 86400)
    ∧ (∀ d ∈ (pruneExpiredLogDetails days now s).details, d ∈ s.details)
    ∧ (pruneExpiredLogDetails days now s).records = s.records
    ∧ (∀ l : List LogDetail,
        (pruneBatch (now - days * 86400) l).2 ≤ logDetailCleanupBatchSize) := by
  have hne : ¬ days ≤ 0 := by omega
  refine ⟨?_, ?_, ?_, fun l => pruneBatch_size _ l⟩
  · intro d hd
    unfold pruneExpiredLogDetails at hd
    rw [if_neg hne] at hd
    have hexp := pruneLoop_not_expired (now - days * 86400)
      (s.details.length + 1) s.details
      (by
        have := List.length_filter_le (detailExpired (now - days * 86400)) s.details
        omega)
      d hd
    unfold detailExpired at hexp
    rw [decide_eq_false_iff_not] at hexp
    omega
  · intro d hd
    unfold pruneExpiredLogDetails at hd
    rw [if_neg hne] at hd
    exact pruneLoop_subset _ _ _ d hd
  · unfold pruneExpiredLogDetails
    rw [if_neg hne]

/-- Witness for C8: a concrete sweep with one expired and one fresh row
keeps only the fresh row within the non-strict bound. -/
theorem C8_retention_sweep_witness :
    (∀ d ∈ (pruneExpiredLogDetails 1 200000 ⟨[⟨1, 10⟩, ⟨2, 150000⟩], [⟨7, 10⟩]⟩).details,
        (200000 : Int) - d.created_at ≤ 1 * 86400)
    ∧ (pruneExpiredLogDetails 1 200000 ⟨[⟨1, 10⟩, ⟨2, 150000⟩], [⟨7, 10⟩]⟩).records
        = [⟨7, 10⟩] :=
  ⟨(C8_retention_sweep 1 200000 ⟨[⟨1, 10⟩, ⟨2, 150000⟩], [⟨7, 10⟩]⟩ (by norm_num)).1,
    (C8_retention_sweep 1 200000 ⟨[⟨1, 10⟩, ⟨2, 150000⟩], [⟨7, 10⟩]⟩ (by norm_num)).2.2.1⟩

/-- C8 counterexample: the deletion filter is `created_at < cutoff`
(strict), so a row aged exactly `days × 86400` seconds survives and
violates the claim's strict bound `now - created_at < days × 86400`. -/
theorem C8_counterexample :
    (pruneExpiredLogDetails 1 172800 ⟨[⟨1, 86400⟩], []⟩).details = [⟨1, 86400⟩]
    ∧ ¬ ((172800 : Int) - 86400 < 1 * 86400) := by
  constructor
  · decide
  · decide

/-- C10: a non-positive `DETAILED_LOG_RETENTION_DAYS` disables the sweep
entirely: the store (details of any age, and records) is returned
unchanged. -/
theorem C10_retention_disabled (days now : Int) (s : LogStore)
    (h : days ≤ 0) :
    pruneExpiredLogDetails days now s = s := by
  unfold pruneExpiredLogDetails
  rw [if_pos h]

/-- Witness for C10: zero retention days leaves an arbitrarily old row in
place. -/
theorem C10_retention_disabled_witness :
    pruneExpiredLogDetails 0 999999999 ⟨[⟨1, -5⟩], [⟨2, 3⟩]⟩
      = ⟨[⟨1, -5⟩], [⟨2, 3⟩]⟩ :=
  C10_retention_disabled 0 999999999 ⟨[⟨1, -5⟩], [⟨2, 3⟩]⟩ (by norm_num)

/-! ## OpenAI chat.completion.chunk stream aggregation
(web `logDetailPrimitives`, `aggregateOpenAIStreamChunks` /
`collectResponseUsage`)

JSON absence and `null` are both `none`; JS truthiness on strings
(`if (x)`) is `strTruthy` (present and non-empty).  `normalise` abstracts
`normaliseContent`/`decodeUnicodeEscapes`, which only post-processes
`reasoning_content` fragments and never touches content, tool calls, role
or usage. -/

structure Usage where
  prompt_tokens : Nat
  completion_tokens : Nat
  total_tokens : Nat
deriving Repr, DecidableEq

/-- JS string truthiness for an optional field. -/
def strTruthy (o : Option String) : Bool :=
  !(o.getD "" = "")

structure OToolDelta where
  index : Option Nat
  tid : Option String
  ttype : Option String
  fname : Option String
  fargs : Option String
deriving Repr, DecidableEq

structure ODelta where
  role : Option String
  content : Option String
  reasoning_content : Option String
  tool_calls : Option (List OToolDelta)
deriving Repr, DecidableEq

structure OChoice where
  delta : Option ODelta
deriving Repr, DecidableEq

structure OChunk where
  choices : List OChoice
  usage : Option Usage
deriving Repr, DecidableEq

/-- Accumulated tool call (`{id, type, function: {name, arguments}}`). -/
structure OToolCall where
  tid : Option String
  ttype : Option String
  name : String
  args : String
deriving Repr, DecidableEq

/-- The object created when a tool-call index is first seen. -/
def initToolCall (d : OToolDelta) : OToolCall :=
  ⟨d.tid, d.ttype, d.fname.getD "", ""⟩

/-- The per-delta merge: id/type/name overwrite when truthy, argument
fragments concatenate. -/
def updateToolCall (e : OToolCall) (d : OToolDelta) : OToolCall :=
  { tid := if strTruthy d.tid then d.tid else e.tid
    ttype := if strTruthy d.ttype then d.ttype else e.ttype
    name := if strTruthy d.fname then d.fname.getD "" else e.name
    args := e.args ++ (if strTruthy d.fargs then d.fargs.getD "" else "") }

/-- `choices[0].delta` when both exist. -/
def chunkDelta (ch : OChunk) : Option ODelta :=
  ch.choices.head?.bind OChoice.delta

/-- Tool-call deltas of one `delta.tool_calls` array with their resolved
target indices (`toolDelta.index ?? position`). -/
def indexedOf (ds : List OToolDelta) : List (Nat × OToolDelta) :=
  ds.enum.map fun pd => (pd.2.index.getD pd.1, pd.2)

/-- `toolCalls[targetIndex] = merge(existing ?? init, delta)` on the
sparse-array state (entry map, array length). -/
def applyIndexedToolDelta (tcs : (Nat → Option OToolCall) × Nat)
    (pd : Nat × OToolDelta) : (Nat → Option OToolCall) × Nat :=
  (fun j => if j = pd.1 then
      some (updateToolCall ((tcs.1 pd.1).getD (initToolCall pd.2)) pd.2)
    else tcs.1 j,
   max tcs.2 (pd.1 + 1))

def applyToolDeltas (tcs : (Nat → Option OToolCall) × Nat)
    (ds : List OToolDelta) : (Nat → Option OToolCall) × Nat :=
  (indexedOf ds).foldl applyIndexedToolDelta tcs

structure OAggState where
  role : String
  fullContent : String
  reasoningBuffer : String
  toolCalls : Nat → Option OToolCall
  toolLen : Nat

def initOAggState : OAggState :=
  ⟨"assistant", "", "", fun _ => none, 0⟩

/-- `if (delta.role) role = delta.role`. -/
def stepRole (st : OAggState) (d : ODelta) : OAggState :=
  if strTruthy d.role then { st with role := d.role.getD "" } else st

/-- `if (delta.content !== undefined && delta.content !== null)
fullContent += delta.content`. -/
def stepContent (st : OAggState) (d : ODelta) : OAggState :=
  match d.content with
  | some s => { st with fullContent := st.fullContent ++ s }
  | none => st

/-- `if (delta.reasoning_content) reasoningBuffer +=
normaliseContent(delta.reasoning_content)`. -/
def stepReasoning (normalise : String → String) (st : OAggState)
    (d : ODelta) : OAggState :=
  if strTruthy d.reasoning_content then
    { st with reasoningBuffer :=
        st.reasoningBuffer ++ normalise (d.reasoning_content.getD "") }
  else st

/-- `if (Array.isArray(delta.tool_calls)) delta.tool_calls.forEach(...)`. -/
def stepTools (st : OAggState) (d : ODelta) : OAggState :=
  match d.tool_calls with
  | some ds =>
    { st with
      toolCalls := (applyToolDeltas (st.toolCalls, st.toolLen) ds).1
      toolLen := (applyToolDeltas (st.toolCalls, st.toolLen) ds).2 }
  | none => st

/-- The body of the `streamObjects.forEach` loop, in source order:
role, content, reasoning, tool calls; chunks without `choices[0].delta`
are skipped. -/
def applyOpenAIChunk (normalise : String → String) (st : OAggState)
    (ch : OChunk) : OAggState :=
  match chunkDelta ch with
  | none => st
  | some delta =>
    stepTools (stepReasoning normalise (stepContent (stepRole st delta) delta) delta)
      delta

def oAggState (normalise : String → String) (chunks : List OChunk) : OAggState :=
  chunks.foldl (applyOpenAIChunk normalise) initOAggState

structure OMessage where
  role : String
  content : Option String
  reasoning : Option String
  tool_calls : Option (List (Option OToolCall))
deriving Repr, DecidableEq

/-- `aggregateOpenAIStreamChunks`. -/
def aggregateOpenAIStreamChunks (normalise : String → String)
    (chunks : List OChunk) : Option OMessage :=
  if chunks = [] then none
  else
    let st := oAggState normalise chunks
    some
      { role := st.role
        content := if st.fullContent = "" then none else some st.fullContent
        reasoning := if strTrim st.reasoningBuffer = "" then none
          else some st.reasoningBuffer
        tool_calls := if 0 < st.toolLen then
            some ((List.range st.toolLen).map st.toolCalls)
          else none }

/-- `collectResponseUsage` restricted to chat chunks (which carry a
top-level `usage` and no `response` envelope): prefer the buffered
response's usage, else the last stream object carrying one. -/
def collectResponseUsage (responseUsage : Option Usage)
    (chunks : List OChunk) : Option Usage :=
  match responseUsage with
  | some u => some u
  | none => (chunks.reverse.find? (fun c => c.usage.isSome)).bind OChunk.usage

/-! Spec-side definitions, written from the claim's words, to be compared
with the source-side aggregator. -/

/-- Claim: "the concatenation, in list order, of every defined non-null
choices[0].delta.content". -/
def specContent (chunks : List OChunk) : String :=
  strConcat (chunks.filterMap fun ch => (chunkDelta ch).bind ODelta.content)

/-- Claim: "the role taken from the last delta that carries one (default
assistant)". -/
def specRole (chunks : List OChunk) : String :=
  ((chunks.filterMap fun ch =>
      (chunkDelta ch).bind fun d =>
        if strTruthy d.role then d.role else none).getLast?).getD "assistant"

/-- All tool-call deltas of the stream with their resolved indices, in
arrival order. -/
def indexedToolDeltas (chunks : List OChunk) : List (Nat × OToolDelta) :=
  (chunks.map fun ch =>
    indexedOf (((chunkDelta ch).bind ODelta.tool_calls).getD [])).flatten

/-- The claim's per-index merge step: id/type/name overwritten by later
deltas when present, argument fragments concatenated. -/
def mergeToolDelta (acc : Option OToolCall) (pd : Nat × OToolDelta) : Option OToolCall :=
  some (updateToolCall (acc.getD (initToolCall pd.2)) pd.2)

/-- Claim: per-index accumulation over the deltas targeting index `i`,
in arrival order. -/
def specToolCall (chunks : List OChunk) (i : Nat) : Option OToolCall :=
  ((indexedToolDeltas chunks).filter fun pd => pd.1 = i).foldl mergeToolDelta none

/-- Claim: "the usage field of the last stream object that carries one". -/
def specUsage (chunks : List OChunk) : Option Usage :=
  (chunks.filterMap OChunk.usage).getLast?

/-! ### C3 proof: the fold equals the claim's per-field description -/

theorem stepRole_fullContent (st : OAggState) (d : ODelta) :
    (stepRole st d).fullContent = st.fullContent := by
  unfold stepRole
  split <;> rfl

theorem stepReasoning_fullContent (n : String → String) (st : OAggState)
    (d : ODelta) : (stepReasoning n st d).fullContent = st.fullContent := by
  unfold stepReasoning
  split <;> rfl

theorem stepTools_fullContent (st : OAggState) (d : ODelta) :
    (stepTools st d).fullContent = st.fullContent := by
  unfold stepTools
  cases d.tool_calls <;> rfl

theorem stepContent_fullContent (st : OAggState) (d : ODelta) :
    (stepContent st d).fullContent
      = st.fullContent ++ (d.content.getD "") := by
  unfold stepContent
  cases hc : d.content
  · simp [append_empty_str]
  · rfl

theorem applyOpenAIChunk_fullContent (n : String → String) (st : OAggState)
    (ch : OChunk) :
    (applyOpenAIChunk n st ch).fullContent
      = st.fullContent ++ (((chunkDelta ch).bind ODelta.content).getD "") := by
  unfold applyOpenAIChunk
  cases hd : chunkDelta ch
  · simp [append_empty_str]
  · rw [stepTools_fullContent, stepReasoning_fullContent, stepContent_fullContent,
      stepRole_fullContent]
    simp

theorem oAgg_fullContent_fold (n : String → String) (chunks : List OChunk) :
    ∀ st : OAggState,
      (chunks.foldl (applyOpenAIChunk n) st).fullContent
        = st.fullContent ++ specContent chunks := by
  induction chunks with
  | nil =>
    intro st
    show st.fullContent = st.fullContent ++ strConcat []
    rw [show strConcat [] = "" from rfl, append_empty_str]
  | cons ch rest ih =>
    intro st
    rw [List.foldl_cons, ih, applyOpenAIChunk_fullContent]
    unfold specContent
    rw [List.filterMap_cons]
    cases hc : (chunkDelta ch).bind ODelta.content
    · simp [append_empty_str]
    · rw [strConcat_cons]
      simp [String.append_assoc]

theorem stepContent_role (st : OAggState) (d : ODelta) :
    (stepContent st d).role = st.role := by
  unfold stepContent
  cases d.content <;> rfl

theorem stepReasoning_role (n : String → String) (st : OAggState)
    (d : ODelta) : (stepReasoning n st d).role = st.role := by
  unfold stepReasoning
  split <;> rfl

theorem stepTools_role (st : OAggState) (d : ODelta) :
    (stepTools st d).role = st.role := by
  unfold stepTools
  cases d.tool_calls <;> rfl

theorem stepRole_role (st : OAggState) (d : ODelta) :
    (stepRole st d).role
      = ((if strTruthy d.role then d.role else none).getD st.role) := by
  unfold stepRole
  by_cases h : strTruthy d.role = true
  · rw [if_pos h, if_pos h]
    have : d.role.getD "" ≠ "" := by
      unfold strTruthy at h
      simpa using h
    cases hr : d.role
    · rw [hr] at this
      simp at this
    · rfl
  · rw [if_neg h, if_neg h]
    rfl

theorem applyOpenAIChunk_role (n : String → String) (st : OAggState)
    (ch : OChunk) :
    (applyOpenAIChunk n st ch).role
      = (((chunkDelta ch).bind fun d =>
          if strTruthy d.role then d.role else none).getD st.role) := by
  unfold applyOpenAIChunk
  cases hd : chunkDelta ch
  · simp
  · rw [stepTools_role, stepReasoning_role, stepContent_role, stepRole_role]
    simp

theorem getLastD_cons (a b : String) (l : List String) :
    ((a :: l).getLast?).getD b = (l.getLast?).getD a := by
  cases l with
  | nil => rfl
  | cons c t => rw [List.getLast?_cons_cons]; rfl

theorem oAgg_role_fold (n : String → String) (chunks : List OChunk) :
    ∀ st : OAggState,
      (chunks.foldl (applyOpenAIChunk n) st).role
        = ((chunks.filterMap fun ch =>
            (chunkDelta ch).bind fun d =>
              if strTruthy d.role then d.role else none).getLast?).getD st.role := by
  induction chunks with
  | nil =>
    intro st
    rfl
  | cons ch rest ih =>
    intro st
    rw [List.foldl_cons, ih, applyOpenAIChunk_role, List.filterMap_cons]
    cases hc : (chunkDelta ch).bind fun d => if strTruthy d.role then d.role else none
    · simp
    · next r =>
      rw [getLastD_cons]
      simp

theorem stepRole_tools (st : OAggState) (d : ODelta) :
    (stepRole st d).toolCalls = st.toolCalls ∧ (stepRole st d).toolLen = st.toolLen := by
  unfold stepRole
  split <;> exact ⟨rfl, rfl⟩

theorem stepContent_tools (st : OAggState) (d : ODelta) :
    (stepContent st d).toolCalls = st.toolCalls
      ∧ (stepContent st d).toolLen = st.toolLen := by
  unfold stepContent
  cases d.content <;> exact ⟨rfl, rfl⟩

theorem stepReasoning_tools (n : String → String) (st : OAggState) (d : ODelta) :
    (stepReasoning n st d).toolCalls = st.toolCalls
      ∧ (stepReasoning n st d).toolLen = st.toolLen := by
  unfold stepReasoning
  split <;> exact ⟨rfl, rfl⟩

/-- The tool-call deltas contributed by one chunk. -/
def toolDeltasOf (ch : OChunk) : List OToolDelta :=
  (((chunkDelta ch).bind ODelta.tool_calls).getD [])

theorem applyOpenAIChunk_tools (n : String → String) (st : OAggState)
    (ch : OChunk) :
    (applyOpenAIChunk n st ch).toolCalls
        = (applyToolDeltas (st.toolCalls, st.toolLen) (toolDeltasOf ch)).1
      ∧ (applyOpenAIChunk n st ch).toolLen
        = (applyToolDeltas (st.toolCalls, st.toolLen) (toolDeltasOf ch)).2 := by
  unfold toolDeltasOf
  cases hd : chunkDelta ch with
  | none =>
    simp only [applyOpenAIChunk, hd]
    exact ⟨rfl, rfl⟩
  | some delta =>
    simp only [applyOpenAIChunk, hd, Option.some_bind]
    have h1 := stepRole_tools st delta
    have h2 := stepContent_tools (stepRole st delta) delta
    have h3 := stepReasoning_tools n (stepContent (stepRole st delta) delta) delta
    cases hts : delta.tool_calls with
    | none =>
      simp only [stepTools, hts]
      rw [h3.1, h3.2, h2.1, h2.2, h1.1, h1.2]
      exact ⟨rfl, rfl⟩
    | some ds =>
      simp only [stepTools, hts]
      rw [h3.1, h3.2, h2.1, h2.2, h1.1, h1.2]
      exact ⟨rfl, rfl⟩

theorem foldl_applyIndexed_get (ps : List (Nat × OToolDelta)) :
    ∀ (tcs : (Nat → Option OToolCall) × Nat) (i : Nat),
      (ps.foldl applyIndexedToolDelta tcs).1 i
        = ((ps.filter fun pd => pd.1 = i).foldl mergeToolDelta (tcs.1 i)) := by
  induction ps with
  | nil =>
    intro tcs i
    rfl
  | cons pd rest ih =>
    intro tcs i
    rw [List.foldl_cons, ih, List.filter_cons]
    by_cases hi : pd.1 = i
    · rw [if_pos (decide_eq_true hi), List.foldl_cons]
      have hentry : (applyIndexedToolDelta tcs pd).1 i = mergeToolDelta (tcs.1 i) pd := by
        unfold applyIndexedToolDelta mergeToolDelta
        rw [← hi]
        simp
      rw [hentry]
    · rw [if_neg (by simpa using hi)]
      have hentry : (applyIndexedToolDelta tcs pd).1 i = tcs.1 i := by
        unfold applyIndexedToolDelta
        simp only []
        rw [if_neg (fun h => hi h.symm)]
      rw [hentry]

theorem applyToolDeltas_get (ds : List OToolDelta)
    (tcs : (Nat → Option OToolCall) × Nat) (i : Nat) :
    (applyToolDeltas tcs ds).1 i
      = ((indexedOf ds).filter fun pd => pd.1 = i).foldl mergeToolDelta (tcs.1 i) :=
  foldl_applyIndexed_get (indexedOf ds) tcs i

theorem oAgg_tools_fold (n : String → String) (chunks : List OChunk) :
    ∀ (st : OAggState) (i : Nat),
      (chunks.foldl (applyOpenAIChunk n) st).toolCalls i
        = ((indexedToolDeltas chunks).filter fun pd => pd.1 = i).foldl
            mergeToolDelta (st.toolCalls i) := by
  induction chunks with
  | nil =>
    intro st i
    rfl
  | cons ch rest ih =>
    intro st i
    rw [List.foldl_cons, ih]
    have hch := (applyOpenAIChunk_tools n st ch).1
    rw [hch, applyToolDeltas_get]
    have hsplit : indexedToolDeltas (ch :: rest)
        = indexedOf (toolDeltasOf ch) ++ indexedToolDeltas rest := by
      unfold indexedToolDeltas toolDeltasOf
      rw [List.map_cons, List.flatten_cons]
    rw [hsplit, List.filter_append, List.foldl_append]

theorem collectResponseUsage_spec (chunks : List OChunk) :
    collectResponseUsage none chunks = specUsage chunks := by
  induction chunks using List.reverseRecOn with
  | nil => rfl
  | append_singleton l c ih =>
    unfold collectResponseUsage specUsage at ih ⊢
    rw [List.reverse_append, List.filterMap_append]
    cases hu : c.usage with
    | none =>
      have hfm : List.filterMap OChunk.usage [c] = [] := by
        simp [hu]
      rw [hfm, List.append_nil, ← ih]
      show ((c :: l.reverse).find? fun x => x.usage.isSome).bind OChunk.usage = _
      have hfind : (c :: l.reverse).find? (fun x => x.usage.isSome)
          = l.reverse.find? (fun x => x.usage.isSome) := by
        rw [List.find?_cons_of_neg]
        simp [hu]
      rw [hfind]
    | some u =>
      have hfm : List.filterMap OChunk.usage [c] = [u] := by
        simp [hu]
      rw [hfm, List.getLast?_concat]
      show ((c :: l.reverse).find? fun x => x.usage.isSome).bind OChunk.usage = _
      have hfind : (c :: l.reverse).find? (fun x => x.usage.isSome) = some c := by
        rw [List.find?_cons_of_pos]
        simp [hu]
      rw [hfind]
      show c.usage = some u
      exact hu

/-- C3.  For every nonempty list of chat.completion.chunk objects the
aggregated message satisfies the claim: content is the in-order
concatenation of every defined non-null `choices[0].delta.content`; the
role is the last truthy `delta.role` (default `assistant`); every
tool-call array slot equals the per-index merge of the deltas that target
it (index falling back to position, id/type/name overwritten when
present, argument fragments concatenated in arrival order); and the
reported usage is the `usage` of the last stream object carrying one. -/
theorem C3_openai_stream_aggregation (normalise : String → String)
    (chunks : List OChunk) (h : chunks ≠ []) :
    (oAggState normalise chunks).fullContent = specContent chunks
    ∧ (oAggState normalise chunks).role = specRole chunks
    ∧ (∀ i, (oAggState normalise chunks).toolCalls i = specToolCall chunks i)
    ∧ (aggregateOpenAIStreamChunks normalise chunks).map OMessage.content
        = some (if specContent chunks = "" then none
            else some (specContent chunks))
    ∧ (aggregateOpenAIStreamChunks normalise chunks).map OMessage.role
        = some (specRole chunks)
    ∧ (aggregateOpenAIStreamChunks normalise chunks).map OMessage.tool_calls
        = some (if 0 < (oAggState normalise chunks).toolLen then
            some ((List.range (oAggState normalise chunks).toolLen).map
              (specToolCall chunks))
          else none)
    ∧ collectResponseUsage none chunks = specUsage chunks := by
  have hc : (oAggState normalise chunks).fullContent = specContent chunks := by
    unfold oAggState
    rw [oAgg_fullContent_fold]
    exact empty_append_str _
  have hr : (oAggState normalise chunks).role = specRole chunks := by
    unfold oAggState
    rw [oAgg_role_fold]
    rfl
  have ht : ∀ i, (oAggState normalise chunks).toolCalls i = specToolCall chunks i := by
    intro i
    unfold oAggState
    rw [oAgg_tools_fold]
    rfl
  have hmsg : aggregateOpenAIStreamChunks normalise chunks
      = some
        { role := (oAggState normalise chunks).role
          content := if (oAggState normalise chunks).fullContent = "" then none
            else some (oAggState normalise chunks).fullContent
          reasoning := if strTrim (oAggState normalise chunks).reasoningBuffer = ""
            then none else some (oAggState normalise chunks).reasoningBuffer
          tool_calls := if 0 < (oAggState normalise chunks).toolLen then
              some ((List.range (oAggState normalise chunks).toolLen).map
                (oAggState normalise chunks).toolCalls)
            else none } := by
    unfold aggregateOpenAIStreamChunks
    rw [if_neg h]
  refine ⟨hc, hr, ht, ?_, ?_, ?_, collectResponseUsage_spec chunks⟩
  · rw [hmsg]
    simp only [Option.map_some']
    show some (if (oAggState normalise chunks).fullContent = "" then none
        else some (oAggState normalise chunks).fullContent)
      = some (if specContent chunks = "" then none
          else some (specContent chunks))
    rw [hc]
  · rw [hmsg]
    simp only [Option.map_some']
    show some (oAggState normalise chunks).role = some (specRole chunks)
    rw [hr]
  · rw [hmsg]
    simp only [Option.map_some']
    show some (if 0 < (oAggState normalise chunks).toolLen then
        some ((List.range (oAggState normalise chunks).toolLen).map
          (oAggState normalise chunks).toolCalls)
      else none)
      = some (if 0 < (oAggState normalise chunks).toolLen then
          some ((List.range (oAggState normalise chunks).toolLen).map
            (specToolCall chunks))
        else none)
    congr 1
    split
    · congr 1
      exact List.map_congr_left fun i _ => ht i
    · rfl

/-- A one-chunk stream carrying `delta.content = "hi"`. -/
def demoChunk : OChunk := ⟨[⟨some ⟨none, some "hi", none, none⟩⟩], none⟩

/-- Witness for C3: the aggregated content of the one-chunk stream is the
concatenation `"hi"`. -/
theorem C3_openai_stream_aggregation_witness :
    (aggregateOpenAIStreamChunks (fun s => s) [demoChunk]).map OMessage.content
      = some (some "hi") := by
  have h := (C3_openai_stream_aggregation (fun s => s) [demoChunk]
    (by decide)).2.2.2.1
  rw [h]
  decide

/-! ## Anthropic message-stream aggregation
(web `logDetailPrimitives`, `aggregateClaudeStreamEvents`)

`parse` abstracts `safeParseJson` (a `JSON.parse` wrapper returning `null`
— here `none` — on failure) and `normalise` abstracts `normaliseContent`
on the `message_delta` reasoning fragments.  A JS `Map` whose keys are the
seen indices is modelled as the insertion-ordered key list plus a total
block function (`defaultCBlock` for unseen indices); the final
`sort((a, b) => a[0] - b[0])` over unique numeric keys depends only on the
key set. -/

inductive Json where
  | null
  | bool (b : Bool)
  | num (n : Int)
  | str (s : String)
  | arr (l : List Json)
  | obj (fields : List (String × Json))

/-- A content block under construction (`getBlock`'s shape). -/
structure CBlock where
  btype : String
  text : String
  name : Option String
  bid : Option String
  input : Option (Sum Json String)
  jsonBuf : String
  content : Option Json
  reasoning : String

def defaultCBlock : CBlock :=
  ⟨"text", "", none, none, none, "", none, ""⟩

/-- The `content_block` payload of a `content_block_start` event. -/
structure CBlockStart where
  btype : Option String
  text : Option String
  name : Option String
  bid : Option String
  input : Option Json
  content : Option Json
  thinking : Option String

/-- A `content_block_delta` payload; `other` is the default switch case
(an unrecognised or missing `delta.type`, appending `delta.text` when
truthy). -/
inductive CDelta where
  | text_delta (text : Option String)
  | thinking_delta (thinking : Option String)
  | input_json_delta (pjson : Option String)
  | tool_use_delta (arguments : Option String)
  | other (text : Option String)

inductive CEvent where
  | message_start (role : Option String)
  | content_block_start (index : Option Nat) (cb : Option CBlockStart)
  | content_block_delta (index : Option Nat) (delta : CDelta)
  | content_block_stop (index : Option Nat)
  | message_delta (role : Option String) (reasoning : Option String)
  | message_stop (role : Option String)
  | other_event

structure CAggState where
  keys : List Nat
  blockAt : Nat → CBlock
  role : String
  reasoning : String

def initCAggState : CAggState :=
  ⟨[], fun _ => defaultCBlock, "assistant", ""⟩

/-- `getBlock(index)` followed by a mutation `f` of the returned block. -/
def touchBlock (st : CAggState) (i : Nat) (f : CBlock → CBlock) : CAggState :=
  { st with
    keys := if i ∈ st.keys then st.keys else st.keys ++ [i]
    blockAt := fun j => if j = i then f (st.blockAt j) else st.blockAt j }

/-- `content_block_start` seeding (`x || y` is JS truthiness). -/
def startBlock (cb : Option CBlockStart) (b : CBlock) : CBlock :=
  { btype := if strTruthy (cb.bind CBlockStart.btype) then
      (cb.bind CBlockStart.btype).getD "" else b.btype
    text := if strTruthy (cb.bind CBlockStart.text) then
      (cb.bind CBlockStart.text).getD "" else ""
    name := cb.bind CBlockStart.name
    bid := cb.bind CBlockStart.bid
    input := (cb.bind CBlockStart.input).map Sum.inl
    jsonBuf := b.jsonBuf
    content := cb.bind CBlockStart.content
    reasoning := if strTruthy (cb.bind CBlockStart.thinking) then
      (cb.bind CBlockStart.thinking).getD "" else "" }

/-- The `content_block_delta` switch. -/
def deltaBlock (d : CDelta) (b : CBlock) : CBlock :=
  match d with
  | .text_delta t =>
    { b with btype := if b.btype = "" then "text" else b.btype
             text := b.text ++ t.getD "" }
  | .thinking_delta t => { b with reasoning := b.reasoning ++ t.getD "" }
  | .input_json_delta pj => { b with jsonBuf := b.jsonBuf ++ pj.getD "" }
  | .tool_use_delta args => { b with jsonBuf := b.jsonBuf ++ args.getD "" }
  | .other t => if strTruthy t then { b with text := b.text ++ t.getD "" } else b

/-- `content_block_stop`: parse the per-block partial-JSON buffer when
non-empty; on parse failure keep the raw string. -/
def stopBlock (parse : String → Option Json) (b : CBlock) : CBlock :=
  if b.jsonBuf = "" then b
  else
    { b with input := some (match parse b.jsonBuf with
        | some j => Sum.inl j
        | none => Sum.inr b.jsonBuf) }

/-- The `events.forEach` switch body. -/
def applyClaudeEvent (parse : String → Option Json)
    (normalise : String → String) (st : CAggState) : CEvent → CAggState
  | .message_start r =>
    if strTruthy r then { st with role := r.getD "" } else st
  | .content_block_start idx cb =>
    touchBlock st (idx.getD st.keys.length) (startBlock cb)
  | .content_block_delta idx d =>
    touchBlock st (idx.getD 0) (deltaBlock d)
  | .content_block_stop idx =>
    touchBlock st (idx.getD 0) (stopBlock parse)
  | .message_delta r reas =>
    { st with
      role := if strTruthy r then r.getD "" else st.role
      reasoning := st.reasoning
        ++ (if strTruthy reas then normalise (reas.getD "") else "") }
  | .message_stop r =>
    if strTruthy r then { st with role := r.getD "" } else st
  | .other_event => st

def claudeAggState (parse : String → Option Json)
    (normalise : String → String) (events : List CEvent) : CAggState :=
  events.foldl (applyClaudeEvent parse normalise) initCAggState

/-- One item of the final `message.content` array. -/
inductive CContentItem where
  | text (t : String)
  | tool_use (bid : Option String) (name : Option String)
      (input : Option (Sum Json String))
  | tool_result (bid : Option String) (name : Option String)
      (content : Sum Json String)
  | generic_block (btype : String) (content : Sum Json String)

/-- The per-block rendering of the final `.map` over sorted blocks. -/
def renderBlock (b : CBlock) : CContentItem :=
  if b.btype = "text" ∨ b.btype = "" then .text b.text
  else if b.btype = "tool_use" then
    .tool_use b.bid b.name
      (match b.input with
        | some v => some v
        | none => if strTrim b.jsonBuf = "" then none
            else some (Sum.inr b.jsonBuf))
  else if b.btype = "tool_result" then
    .tool_result b.bid b.name
      (match b.content with
        | some j => Sum.inl j
        | none => Sum.inr b.text)
  else
    .generic_block b.btype
      (match b.content with
        | some j => Sum.inl j
        | none => Sum.inr b.text)

/-- The block indices listed by the final message: ascending, reasoning
blocks filtered out. -/
def sortedContentKeys (st : CAggState) : List Nat :=
  (List.insertionSort (· ≤ ·) st.keys).filter
    fun i => (st.blockAt i).btype ≠ "reasoning"

structure CMessage where
  role : String
  content : Option (List CContentItem)
  reasoning : Option String

/-- `aggregateClaudeStreamEvents`. -/
def aggregateClaudeStreamEvents (parse : String → Option Json)
    (normalise : String → String) (events : List CEvent) : Option CMessage :=
  if events.isEmpty then none
  else
    let st := claudeAggState parse normalise events
    let ks := sortedContentKeys st
    let reasoningAll := st.reasoning
      ++ strConcat (ks.map fun i => (st.blockAt i).reasoning)
    some
      { role := st.role
        content := if ks = [] then none
          else some (ks.map fun i => renderBlock (st.blockAt i))
        reasoning := if strTrim reasoningAll = "" then none
          else some reasoningAll }

/-! ### C4 proof -/

theorem touchBlock_blockAt_self (st : CAggState) (i : Nat) (f : CBlock → CBlock) :
    (touchBlock st i f).blockAt i = f (st.blockAt i) := by
  unfold touchBlock
  simp

theorem touchBlock_blockAt_other (st : CAggState) (i j : Nat)
    (f : CBlock → CBlock) (h : j ≠ i) :
    (touchBlock st i f).blockAt j = st.blockAt j := by
  unfold touchBlock
  simp [h]

/-- C4.  The aggregator keeps a map of content blocks keyed by the event
index: `content_block_start` seeds type, text, name, id, input and
content from the event's `content_block` (other indices untouched);
`text_delta` appends `delta.text`; `thinking_delta` appends
`delta.thinking` to the block's reasoning; `input_json_delta` appends
`delta.pjson` to the block's partial-JSON buffer;
`content_block_stop` parses the non-empty buffer and assigns the parsed
value, or the raw buffer string when parsing fails, to the block's input;
`message_delta` updates the role (when truthy) and appends the top-level
reasoning; and the final message lists its blocks in ascending index
order. -/
theorem C4_claude_stream_aggregation (parse : String → Option Json)
    (normalise : String → String) :
    (∀ (st : CAggState) (i : Nat) (cb : Option CBlockStart),
      ((applyClaudeEvent parse normalise st
          (.content_block_start (some i) cb)).blockAt i).btype
          = (if strTruthy (cb.bind CBlockStart.btype) then
              (cb.bind CBlockStart.btype).getD "" else (st.blockAt i).btype)
      ∧ ((applyClaudeEvent parse normalise st
          (.content_block_start (some i) cb)).blockAt i).text
          = (if strTruthy (cb.bind CBlockStart.text) then
              (cb.bind CBlockStart.text).getD "" else "")
      ∧ ((applyClaudeEvent parse normalise st
          (.content_block_start (some i) cb)).blockAt i).name
          = cb.bind CBlockStart.name
      ∧ ((applyClaudeEvent parse normalise st
          (.content_block_start (some i) cb)).blockAt i).bid
          = cb.bind CBlockStart.bid
      ∧ ((applyClaudeEvent parse normalise st
          (.content_block_start (some i) cb)).blockAt i).input
          = (cb.bind CBlockStart.input).map Sum.inl
      ∧ ((applyClaudeEvent parse normalise st
          (.content_block_start (some i) cb)).blockAt i).content
          = cb.bind CBlockStart.content
      ∧ ∀ j, j ≠ i →
          (applyClaudeEvent parse normalise st
            (.content_block_start (some i) cb)).blockAt j = st.blockAt j)
    ∧ (∀ (st : CAggState) (i : Nat) (t : Option String),
        ((applyClaudeEvent parse normalise st
          (.content_block_delta (some i) (.text_delta t))).blockAt i).text
          = (st.blockAt i).text ++ t.getD "")
    ∧ (∀ (st : CAggState) (i : Nat) (t : Option String),
        ((applyClaudeEvent parse normalise st
          (.content_block_delta (some i) (.thinking_delta t))).blockAt i).reasoning
          = (st.blockAt i).reasoning ++ t.getD "")
    ∧ (∀ (st : CAggState) (i : Nat) (pj : Option String),
        ((applyClaudeEvent parse normalise st
          (.content_block_delta (some i) (.input_json_delta pj))).blockAt i).jsonBuf
          = (st.blockAt i).jsonBuf ++ pj.getD "")
    ∧ (∀ (st : CAggState) (i : Nat),
        (st.blockAt i).jsonBuf ≠ "" →
        ((applyClaudeEvent parse normalise st
          (.content_block_stop (some i))).blockAt i).input
          = some (match parse ((st.blockAt i).jsonBuf) with
              | some j => Sum.inl j
              | none => Sum.inr ((st.blockAt i).jsonBuf)))
    ∧ (∀ (st : CAggState) (r reas : Option String),
        (applyClaudeEvent parse normalise st (.message_delta r reas)).role
            = (if strTruthy r then r.getD "" else st.role)
        ∧ (applyClaudeEvent parse normalise st (.message_delta r reas)).reasoning
            = st.reasoning ++ (if strTruthy reas then normalise (reas.getD "") else ""))
    ∧ (∀ events : List CEvent,
        List.Sorted (· ≤ ·)
          (sortedContentKeys (claudeAggState parse normalise events)))
    ∧ (∀ events : List CEvent, events ≠ [] →
        (aggregateClaudeStreamEvents parse normalise events).map CMessage.content
          = some (if sortedContentKeys (claudeAggState parse normalise events) = []
              then none
              else some ((sortedContentKeys
                  (claudeAggState parse normalise events)).map
                fun i => renderBlock
                  ((claudeAggState parse normalise events).blockAt i)))) := by
  refine ⟨?_, ?_, ?_, ?_, ?_, ?_, ?_, ?_⟩
  · intro st i cb
    have hb : (applyClaudeEvent parse normalise st
        (.content_block_start (some i) cb)).blockAt i
        = startBlock cb (st.blockAt i) := by
      show (touchBlock st ((some i).getD st.keys.length)
        (startBlock cb)).blockAt i = _
      rw [Option.getD_some, touchBlock_blockAt_self]
    refine ⟨?_, ?_, ?_, ?_, ?_, ?_, ?_⟩
    · rw [hb]
      rfl
    · rw [hb]
      rfl
    · rw [hb]
      rfl
    · rw [hb]
      rfl
    · rw [hb]
      rfl
    · rw [hb]
      rfl
    · intro j hj
      show (touchBlock st ((some i).getD st.keys.length)
        (startBlock cb)).blockAt j = _
      rw [Option.getD_some]
      exact touchBlock_blockAt_other st i j _ hj
  · intro st i t
    have hb : (applyClaudeEvent parse normalise st
        (.content_block_delta (some i) (.text_delta t))).blockAt i
        = deltaBlock (.text_delta t) (st.blockAt i) := by
      show (touchBlock st ((some i).getD 0)
        (deltaBlock (.text_delta t))).blockAt i = _
      rw [Option.getD_some, touchBlock_blockAt_self]
    rw [hb]
    rfl
  · intro st i t
    have hb : (applyClaudeEvent parse normalise st
        (.content_block_delta (some i) (.thinking_delta t))).blockAt i
        = deltaBlock (.thinking_delta t) (st.blockAt i) := by
      show (touchBlock st ((some i).getD 0)
        (deltaBlock (.thinking_delta t))).blockAt i = _
      rw [Option.getD_some, touchBlock_blockAt_self]
    rw [hb]
    rfl
  · intro st i pj
    have hb : (applyClaudeEvent parse normalise st
        (.content_block_delta (some i) (.input_json_delta pj))).blockAt i
        = deltaBlock (.input_json_delta pj) (st.blockAt i) := by
      show (touchBlock st ((some i).getD 0)
        (deltaBlock (.input_json_delta pj))).blockAt i = _
      rw [Option.getD_some, touchBlock_blockAt_self]
    rw [hb]
    rfl
  · intro st i hne
    have hb : (applyClaudeEvent parse normalise st
        (.content_block_stop (some i))).blockAt i
        = stopBlock parse (st.blockAt i) := by
      show (touchBlock st ((some i).getD 0) (stopBlock parse)).blockAt i = _
      rw [Option.getD_some, touchBlock_blockAt_self]
    rw [hb]
    unfold stopBlock
    rw [if_neg hne]
  · intro st r reas
    exact ⟨rfl, rfl⟩
  · intro events
    unfold sortedContentKeys
    have hs : List.Sorted (· ≤ ·)
        (List.insertionSort (· ≤ ·)
          (claudeAggState parse normalise events).keys) :=
      List.sorted_insertionSort (· ≤ ·) _
    exact List.Pairwise.sublist (List.filter_sublist _) hs
  · intro events h
    cases events with
    | nil => exact absurd rfl h
    | cons e rest => rfl

/-- A block mid-construction holding the partial-JSON buffer `"x"`. -/
def demoCBlock : CBlock := ⟨"tool_use", "", none, none, none, "x", none, ""⟩

/-- Witness for C4: a `content_block_stop` on a block whose buffer fails
to parse assigns the raw buffer string to the block's input. -/
theorem C4_claude_stream_aggregation_witness :
    ((applyClaudeEvent (fun _ => none) (fun s => s)
        ⟨[0], fun _ => demoCBlock, "assistant", ""⟩
        (.content_block_stop (some 0))).blockAt 0).input
      = some (Sum.inr "x") :=
  (C4_claude_stream_aggregation (fun _ => none) (fun s => s)).2.2.2.2.1
    ⟨[0], fun _ => demoCBlock, "assistant", ""⟩ 0 (by decide)

/-! ## Upstream URL composition (`relay/common`, `GetFullRequestURL`)

Only the test `TestGetFullRequestURL_OpenAIBaseURLPathHandling` is in the
tree; the function itself is modelled from the spec (§4.2) and
cross-checked against every vector of that test. -/

/-- A base URL split into `scheme://host` origin and path component. -/
structure BaseURL where
  origin : String
  path : String
deriving Repr, DecidableEq

def cloudflareGatewayOrigin : String := "https://gateway.ai.cloudflare.com"

/-- "no path component (or only `/`)" from the spec. -/
def hasRootPath (p : String) : Bool :=
  p = "" || p = "/"

def trimTrailingSlash (s : String) : String :=
  if s.data.getLast? = some '/' then String.mk s.data.dropLast else s

/-- `strings.TrimPrefix(requestURL, "/v1")`. -/
def stripV1 (req : String) : String :=
  if "/v1".data <+: req.data then String.mk (req.data.drop 3) else req

def renderBase (b : BaseURL) : String :=
  b.origin ++ trimTrailingSlash b.path

def isCloudflareGateway (b : BaseURL) : Bool :=
  decide (cloudflareGatewayOrigin.data <+: (b.origin ++ b.path).data)

/-- Modelled from the spec: `GetFullRequestURL` is absent from the tree
(only its test exists).  Spec §4.2: the Cloudflare AI gateway shape is
handled first; for the OpenAI family a root base path keeps the request
URL (so `/v1/...` is preserved) while a non-root base path strips the
leading `/v1`; non-OpenAI channels always append the request URL
unchanged. -/
def GetFullRequestURL (b : BaseURL) (requestURL : String)
    (openaiFamily : Bool) : String :=
  if isCloudflareGateway b && openaiFamily then
    renderBase b ++ stripV1 requestURL
  else if openaiFamily then
    if hasRootPath b.path then renderBase b ++ requestURL
    else renderBase b ++ stripV1 requestURL
  else renderBase b ++ requestURL

/-- C2.  URL composition: for an OpenAI-family channel a base URL with no
path (or only `/`) keeps the request URL intact, a non-root base path
strips the leading `/v1`; non-OpenAI channels never strip `/v1`; the
Cloudflare gateway shape is handled first; and every vector of the
repository's `TestGetFullRequestURL_OpenAIBaseURLPathHandling` holds. -/
theorem C2_url_composition :
    (∀ (b : BaseURL) (req : String), isCloudflareGateway b = false →
        hasRootPath b.path = true →
        GetFullRequestURL b req true = renderBase b ++ req)
    ∧ (∀ (b : BaseURL) (req : String), isCloudflareGateway b = false →
        hasRootPath b.path = false →
        GetFullRequestURL b req true = renderBase b ++ stripV1 req)
    ∧ (∀ (b : BaseURL) (req : String),
        GetFullRequestURL b req false = renderBase b ++ req)
    ∧ (∀ (b : BaseURL) (req : String), isCloudflareGateway b = true →
        GetFullRequestURL b req true = renderBase b ++ stripV1 req)
    ∧ GetFullRequestURL ⟨"https://gateway.ai.cloudflare.com", "/account/gateway/openai"⟩
        "/v1/chat/completions" true
        = "https://gateway.ai.cloudflare.com/account/gateway/openai/chat/completions"
    ∧ GetFullRequestURL ⟨"https://api.openai.com", ""⟩ "/v1/chat/completions" true
        = "https://api.openai.com/v1/chat/completions"
    ∧ GetFullRequestURL ⟨"https://api.openai.com", "/"⟩ "/v1/chat/completions" true
        = "https://api.openai.com/v1/chat/completions"
    ∧ GetFullRequestURL ⟨"https://api.openai.com", "/v2"⟩ "/v1/chat/completions" true
        = "https://api.openai.com/v2/chat/completions"
    ∧ GetFullRequestURL ⟨"https://api.openai.com", "/v2/"⟩ "/v1/chat/completions" true
        = "https://api.openai.com/v2/chat/completions"
    ∧ GetFullRequestURL ⟨"https://openrouter.ai", "/api"⟩ "/v1/chat/completions" false
        = "https://openrouter.ai/api/v1/chat/completions" := by
  refine ⟨?_, ?_, ?_, ?_, by decide, by decide, by decide, by decide, by decide, by decide⟩
  · intro b req hcf hroot
    unfold GetFullRequestURL
    rw [if_neg (by simp [hcf]), if_pos rfl, if_pos hroot]
  · intro b req hcf hroot
    unfold GetFullRequestURL
    rw [if_neg (by simp [hcf]), if_pos rfl, if_neg (by simp [hroot])]
  · intro b req
    unfold GetFullRequestURL
    rw [if_neg (by simp), if_neg (by simp)]
  · intro b req hcf
    unfold GetFullRequestURL
    rw [if_pos (by simp [hcf])]

/-- Witness for C2: the non-root-path clause at the `/v2` base. -/
theorem C2_url_composition_witness :
    GetFullRequestURL ⟨"https://api.openai.com", "/v2"⟩ "/v1/z" true
      = renderBase ⟨"https://api.openai.com", "/v2"⟩ ++ stripV1 "/v1/z" :=
  C2_url_composition.2.1 ⟨"https://api.openai.com", "/v2"⟩ "/v1/z"
    (by decide) (by decide)

/-! ## Pass-through header filter (`relay/channel`,
`buildPassThroughHeaderDenySet` / `copyHeadersExcept`)

Only the tests exist in the tree; the two functions are modelled from the
spec (§4.2 header hygiene) and cross-checked against the tests' vectors.
A header map is an association list `name ↦ values` with Go's canonical
keys; case-insensitivity is by lower-casing. -/

def HeaderMap := List (String × List String)

def lowerStr (s : String) : String :=
  String.mk (s.data.map Char.toLower)

/-- All values of a header name, case-insensitively. -/
def headerValues (h : HeaderMap) (name : String) : List String :=
  ((h.filter fun p => lowerStr p.1 = lowerStr name).map Prod.snd).flatten

/-- The fixed deny list: auth headers, RFC 7230 hop-by-hop headers, and
the extra control headers, lower-cased. -/
def baseDenyHeaders : List String :=
  ["authorization", "cookie", "api-key", "x-api-key",
   "connection", "keep-alive", "proxy-authenticate", "proxy-authorization",
   "te", "trailer", "transfer-encoding", "upgrade",
   "proxy-connection", "host", "content-length"]

/-- The comma-separated token list of one `Connection` header value:
split on commas, trim surrounding whitespace, lower-case, drop blanks. -/
def connTokens (v : String) : List String :=
  ((v.data.splitOn ',').map fun l => lowerStr (strTrim (String.mk l))).filter
    fun t => t ≠ ""

/-- Every header name declared hop-by-hop by the inbound `Connection`
header. -/
def connectionTokens (src : HeaderMap) : List String :=
  ((headerValues src "Connection").map connTokens).flatten

/-- Modelled from the spec: `buildPassThroughHeaderDenySet` is absent
from the tree (only its tests exist).  The deny set is the fixed deny
list, plus the inbound `Connection` token list, plus the caller's extra
deny names, all lower-cased. -/
def buildPassThroughHeaderDenySet (src : HeaderMap)
    (extraDeny : List String) : List String :=
  baseDenyHeaders ++ connectionTokens src ++ extraDeny.map lowerStr

/-- Modelled from the spec: `copyHeadersExcept` is absent from the tree
(only its tests exist).  Copy every header whose lower-cased name is not
denied, with all of its values in order. -/
def copyHeadersExcept (src : HeaderMap) (deny : List String) : HeaderMap :=
  src.filter fun p => !(deny.contains (lowerStr p.1))

theorem headerValues_copyExcept_denied (src : HeaderMap) (deny : List String)
    (k : String) (h : lowerStr k ∈ deny) :
    headerValues (copyHeadersExcept src deny) k = [] := by
  unfold headerValues copyHeadersExcept
  rw [List.filter_filter]
  have hnil : (src.filter fun p =>
      decide (lowerStr p.1 = lowerStr k) && !(deny.contains (lowerStr p.1))) = [] := by
    rw [List.filter_eq_nil_iff]
    intro p hp hcon
    rw [Bool.and_eq_true, decide_eq_true_eq] at hcon
    have hkin : deny.contains (lowerStr p.1) = true := by
      rw [hcon.1]
      simpa using h
    rw [hkin] at hcon
    exact absurd hcon.2 (by simp)
  rw [hnil]
  rfl

theorem headerValues_copyExcept_kept (src : HeaderMap) (deny : List String)
    (k : String) (h : lowerStr k ∉ deny) :
    headerValues (copyHeadersExcept src deny) k = headerValues src k := by
  unfold headerValues copyHeadersExcept
  rw [List.filter_filter]
  have heq : (src.filter fun p =>
      decide (lowerStr p.1 = lowerStr k) && !(deny.contains (lowerStr p.1)))
      = src.filter fun p => decide (lowerStr p.1 = lowerStr k) := by
    apply List.filter_congr
    intro p hp
    by_cases hk : lowerStr p.1 = lowerStr k
    · have hnc : deny.contains (lowerStr p.1) = false := by
        rw [hk]
        simpa using h
      simp [hk, hnc]
      exact h
    · simp [hk]
  rw [heq]

/-- C1.  Pass-through header hygiene: the outbound map built by
`copyHeadersExcept src (buildPassThroughHeaderDenySet src nil)` carries
none of the auth headers, none of the RFC 7230 hop-by-hop and control
headers, and no header named (case-insensitively, comma-separated,
whitespace-trimmed) in the inbound `Connection` token list; every other
header keeps all of its values in order.  The deny-set vectors of
`TestBuildPassThroughHeaderDenySet_ConnectionTokensAndExtraDeny` and
representative vectors of
`TestCopyHeadersExcept_FiltersAuthHopByHopAndConnectionTokens` hold. -/
theorem C1_header_filter :
    (∀ (src : HeaderMap) (k : String),
        lowerStr k ∈ baseDenyHeaders →
        headerValues (copyHeadersExcept src
          (buildPassThroughHeaderDenySet src [])) k = [])
    ∧ (∀ (src : HeaderMap) (k : String),
        lowerStr k ∈ connectionTokens src →
        headerValues (copyHeadersExcept src
          (buildPassThroughHeaderDenySet src [])) k = [])
    ∧ (∀ (src : HeaderMap) (k : String),
        lowerStr k ∉ buildPassThroughHeaderDenySet src [] →
        headerValues (copyHeadersExcept src
          (buildPassThroughHeaderDenySet src [])) k = headerValues src k)
    ∧ (let deny := buildPassThroughHeaderDenySet
          [("Connection", [" X-Hop , Foo "])]
          ["Sec-WebSocket-Key", "Content-Type"]
       deny.contains "x-hop" = true ∧ deny.contains "foo" = true
        ∧ deny.contains "sec-websocket-key" = true
        ∧ deny.contains "content-type" = true)
    ∧ (let src : HeaderMap :=
          [("X-Trace-Id", ["abc"]), ("X-Multi", ["a", "b"]),
           ("Authorization", ["Bearer user"]), ("Cookie", ["session=abc"]),
           ("Connection", ["X-Hop, keep-alive"]), ("X-Hop", ["1"]),
           ("Content-Length", ["123"]), ("Keep-Alive", ["timeout=5"])]
       let dst := copyHeadersExcept src (buildPassThroughHeaderDenySet src [])
       headerValues dst "X-Trace-Id" = ["abc"]
        ∧ headerValues dst "X-Multi" = ["a", "b"]
        ∧ headerValues dst "Authorization" = []
        ∧ headerValues dst "Cookie" = []
        ∧ headerValues dst "Connection" = []
        ∧ headerValues dst "X-Hop" = []
        ∧ headerValues dst "Content-Length" = []
        ∧ headerValues dst "Keep-Alive" = []) := by
  refine ⟨?_, ?_, ?_, by decide, by decide⟩
  · intro src k h
    apply headerValues_copyExcept_denied
    unfold buildPassThroughHeaderDenySet
    simp [h]
  · intro src k h
    apply headerValues_copyExcept_denied
    unfold buildPassThroughHeaderDenySet
    simp [h]
  · intro src k h
    exact headerValues_copyExcept_kept src _ k h

/-- Witness for C1: the inbound `Authorization` header is stripped while
`X-Trace-Id` survives. -/
theorem C1_header_filter_witness :
    headerValues
        (copyHeadersExcept [("Authorization", ["Bearer x"]), ("X-Trace-Id", ["t"])]
          (buildPassThroughHeaderDenySet
            [("Authorization", ["Bearer x"]), ("X-Trace-Id", ["t"])] []))
        "Authorization" = [] :=
  C1_header_filter.1 [("Authorization", ["Bearer x"]), ("X-Trace-Id", ["t"])]
    "Authorization" (by decide)

/-! ## Header-override template resolution (`relay/channel`,
`processHeaderOverride`)

Only the tests exist in the tree; the function is modelled from the spec
(§4.2: templates like `"{client_header:X-Trace-Id}"` resolve from the
inbound request context, except during synthetic channel-test requests
where client-header placeholders resolve to empty) and cross-checked
against the tests' vectors. -/

/-- Recognise a `{client_header:H}` template and extract `H`
(`Char.ofNat 125` is the closing brace). -/
def clientHeaderPlaceholder (tmpl : String) : Option String :=
  if "\x7bclient_header:".data <+: tmpl.data
      ∧ tmpl.data.getLast? = some (Char.ofNat 125) then
    some (String.mk ((tmpl.data.drop 15).dropLast))
  else none

/-- Modelled from the spec: `processHeaderOverride` is absent from the
tree (only its tests exist).  Each override entry resolves its template:
a `client_header` placeholder takes the inbound header's value, except
during a channel-test request where it resolves to empty; entries that
resolve to empty (and the `*` pass-through marker, which is not itself a
header) contribute no upstream header. -/
def processHeaderOverride (isChannelTest : Bool)
    (clientHeaders : String → Option String)
    (override : List (String × String)) : List (String × String) :=
  override.filterMap fun kv =>
    if kv.1 = "*" then none
    else
      match clientHeaderPlaceholder kv.2 with
      | some hname =>
        let v := if isChannelTest then "" else (clientHeaders hname).getD ""
        if v = "" then none else some (kv.1, v)
      | none => if kv.2 = "" then none else some (kv.1, kv.2)

theorem clientHeaderPlaceholder_roundtrip (hname : String) :
    clientHeaderPlaceholder ("\x7bclient_header:" ++ hname ++ "\x7d")
      = some hname := by
  have hdata : ("\x7bclient_header:" ++ hname ++ "\x7d").data
      = "\x7bclient_header:".data ++ (hname.data ++ [Char.ofNat 125]) := by
    rw [String.data_append, String.data_append]
    rw [show ("\x7d" : String).data = [Char.ofNat 125] by decide]
    rw [List.append_assoc]
  have hpre : "\x7bclient_header:".data
      <+: ("\x7bclient_header:".data ++ (hname.data ++ [Char.ofNat 125])) :=
    List.prefix_append _ _
  have hlast : ("\x7bclient_header:".data
      ++ (hname.data ++ [Char.ofNat 125])).getLast? = some (Char.ofNat 125) := by
    rw [← List.append_assoc, List.getLast?_concat]
  have hdrop : List.drop 15 ("\x7bclient_header:".data
      ++ (hname.data ++ [Char.ofNat 125])) = hname.data ++ [Char.ofNat 125] := by
    have h15 : ("\x7bclient_header:".data).length = 15 := by decide
    rw [← h15, List.drop_left]
  unfold clientHeaderPlaceholder
  rw [hdata]
  rw [if_pos ⟨hpre, hlast⟩]
  rw [hdrop, List.dropLast_concat]

/-- C9.  A `\x7bclient_header:H\x7d` override template resolves to the
inbound request's value of header `H` on a real relay request, but to
empty during a synthetic channel-test request, so the computed upstream
header map carries no client-derived value for that entry; the vectors of
`TestProcessHeaderOverride_ChannelTestSkipsClientHeaderPlaceholder` and
`TestProcessHeaderOverride_NonTestKeepsClientHeaderPlaceholder` hold. -/
theorem C9_header_override_templates :
    (∀ (client : String → Option String) (k hname : String),
        processHeaderOverride true client
          [(k, "\x7bclient_header:" ++ hname ++ "\x7d")] = [])
    ∧ (∀ (client : String → Option String) (k hname v : String),
        k ≠ "*" → client hname = some v → v ≠ "" →
        processHeaderOverride false client
          [(k, "\x7bclient_header:" ++ hname ++ "\x7d")] = [(k, v)])
    ∧ (∀ client : String → Option String,
        processHeaderOverride true client [("*", "")] = [])
    ∧ processHeaderOverride true
        (fun h => if h = "X-Trace-Id" then some "trace-123" else none)
        [("X-Upstream-Trace", "\x7bclient_header:X-Trace-Id\x7d")] = []
    ∧ processHeaderOverride false
        (fun h => if h = "X-Trace-Id" then some "trace-123" else none)
        [("X-Upstream-Trace", "\x7bclient_header:X-Trace-Id\x7d")]
        = [("X-Upstream-Trace", "trace-123")] := by
  refine ⟨?_, ?_, ?_, by decide, by decide⟩
  · intro client k hname
    by_cases hk : k = "*"
    · simp [processHeaderOverride, hk]
    · simp [processHeaderOverride, hk, clientHeaderPlaceholder_roundtrip]
  · intro client k hname v hk hv hvne
    simp [processHeaderOverride, hk, clientHeaderPlaceholder_roundtrip, hv, hvne]
  · intro client
    simp [processHeaderOverride]

/-- Witness for C9: a non-test request resolves the placeholder to the
client header's value. -/
theorem C9_header_override_templates_witness :
    processHeaderOverride false (fun _ => some "t")
      [("X-Up", "\x7bclient_header:" ++ "H" ++ "\x7d")] = [("X-Up", "t")] :=
  C9_header_override_templates.2.1 (fun _ => some "t") "X-Up" "H" "t"
    (by decide) rfl (by decide)

end NewApi
